import Mathlib

/-!
Verification of the linkfarm reconciliation engine of stash-tagfarm
(`src/tagfarm/linkfarm.py`) against its natural-language specification.

The development shallowly embeds the engine: strings are `String`,
filesystem paths are lists of components (`List String`), and the
filesystem is a finite association list from paths to entries.  Every
definition is translated from the Python source; definitions whose name
ends in `Spec` restate the specification's wording and are compared with
the source-derived definitions.
-/

/-! ### The name sanitizer (`_sanitize_name`, linkfarm.py lines 22-37) -/

/-- The characters replaced by underscores (linkfarm.py line 25). -/
def problematicChars : List Char := ['/', '\\', ':', '*', '?', '\"', '<', '>', '|']

/-- One pass of Python `str.replace(char, underscore)` over the character
list (linkfarm.py line 28; for a single-character pattern `replace` is a
character-wise map). -/
def replaceAllChar (s : List Char) (c : Char) : List Char :=
  s.map (fun d => if d = c then '_' else d)

/-- The sequential replacement loop of `_sanitize_name`
(linkfarm.py lines 27-28). -/
def sanitizeCore (s : List Char) : List Char :=
  problematicChars.foldl replaceAllChar s

/-- The characters stripped from both ends by `strip` on line 31 of
linkfarm.py: dot and space only. -/
def isStripChar (c : Char) : Bool := c = '.' || c = ' '

/-- Python `str.strip(dot-space)` (linkfarm.py line 31): remove the longest
run of dots and spaces from both ends. -/
def stripEnds (s : List Char) : List Char :=
  ((s.dropWhile isStripChar).reverse.dropWhile isStripChar).reverse

/-- Embedding of `LinkFarmManager._sanitize_name`
(linkfarm.py lines 22-37). -/
def _sanitize_name (name : String) : String :=
  let s := stripEnds (sanitizeCore name.data)
  if s.isEmpty then "unnamed" else String.mk s

/-! Specification-side restatement of the sanitizer, following the spec's
words: a simultaneous character replacement followed by a two-sided trim,
defaulting to the placeholder when empty.  (The trim is stated for dots and
spaces, the set the code actually strips; see the C6 analysis.) -/

/-- Simultaneous replacement of every problematic character, as the spec
words it. -/
def replaceSpec (c : Char) : Char := if c ∈ problematicChars then '_' else c

/-- Specification-side left trim of dots and spaces, written as direct
recursion. -/
def trimLeftSpec : List Char → List Char
  | [] => []
  | c :: cs => if isStripChar c then trimLeftSpec cs else c :: cs

/-- Specification-side two-sided trim. -/
def trimSpec (l : List Char) : List Char :=
  (trimLeftSpec (trimLeftSpec l).reverse).reverse

/-- Specification-side sanitizer as the (amended) claim words it. -/
def sanitizeSpec (name : String) : String :=
  let r := trimSpec (name.data.map replaceSpec)
  if r = [] then "unnamed" else String.mk r

/-- The generalized replacement fold: folding single-character replaces is
the simultaneous replacement. -/
def replaceL (cl : List Char) (c : Char) : Char := if c ∈ cl then '_' else c

/-! ### The filesystem model

Paths are lists of components; the filesystem is an association list from
paths to entries.  Symbolic-link resolution follows chains with fuel
(bounded by the store size, which covers every acyclic chain; a cyclic
chain resolves to nothing, matching the OS `ELOOP` behaviour of
`Path.exists`).  OS-level spontaneous failures (permissions and the like)
are not modelled.  -/

/-- A filesystem path, as a list of components. -/
abbrev Fpath := List String

/-- A filesystem entry: a directory, a regular file, or a symbolic link
with its raw target. -/
inductive Entry where
  | dir : Entry
  | file : Entry
  | symlink (target : Fpath) : Entry
deriving DecidableEq

/-- The filesystem store. -/
abbrev FS := List (Fpath × Entry)

/-- Look up the entry at a path (first binding wins). -/
def FS.lookup : FS → Fpath → Option Entry
  | [], _ => none
  | (q, e) :: rest, p => if p = q then some e else FS.lookup rest p

/-- Remove every binding at a path. -/
def FS.remove : FS → Fpath → FS
  | [], _ => []
  | (q, e) :: rest, p =>
    if q = p then FS.remove rest p else (q, e) :: FS.remove rest p

/-- Bind a path to an entry, replacing any previous binding. -/
def FS.insert (fs : FS) (p : Fpath) (e : Entry) : FS :=
  (p, e) :: FS.remove fs p

/-- Fuelled resolution: does the path resolve to an existing file or
directory, following symbolic links? -/
def FS.resolveB (fs : FS) : Nat → Fpath → Bool
  | 0, _ => false
  | fuel + 1, p =>
    match FS.lookup fs p with
    | some Entry.dir => true
    | some Entry.file => true
    | some (Entry.symlink t) => FS.resolveB fs fuel t
    | none => false

/-- Python `Path.exists()`: follows symbolic links. -/
def FS.existsAt (fs : FS) (p : Fpath) : Bool :=
  FS.resolveB fs (fs.length + 1) p

/-- Python `Path.is_symlink()`. -/
def FS.isSymlink (fs : FS) (p : Fpath) : Bool :=
  match FS.lookup fs p with
  | some (Entry.symlink _) => true
  | _ => false

/-- Fuelled resolution to a directory, for `os.walk`'s `is_dir`
classification (which follows symbolic links). -/
def FS.resolveDirB (fs : FS) : Nat → Fpath → Bool
  | 0, _ => false
  | fuel + 1, p =>
    match FS.lookup fs p with
    | some Entry.dir => true
    | some (Entry.symlink t) => FS.resolveDirB fs fuel t
    | _ => false

/-- Does the path resolve to a directory, following symbolic links? -/
def FS.isDirAt (fs : FS) (p : Fpath) : Bool :=
  FS.resolveDirB fs (fs.length + 1) p

/-- Python `Path.unlink()`: succeeds on a regular file or a symbolic link,
fails (raises) on a directory or a missing path. -/
def FS.unlink (fs : FS) (p : Fpath) : Option FS :=
  match FS.lookup fs p with
  | some Entry.file => some (FS.remove fs p)
  | some (Entry.symlink _) => some (FS.remove fs p)
  | _ => none

/-- The engine's run-aborting failures: an uncaught `OSError` escaping
`readlink` in the collision loop, a conflicting entry on a directory path
during `mkdir(parents=True)`, and fuel exhaustion of the fuelled collision
loop (shown unreachable where needed). -/
inductive EngErr where
  | osRaise (p : Fpath)
  | mkdirConflict (p : Fpath)
  | outOfFuel
deriving DecidableEq

/-- The non-empty prefixes of a path, shortest first. -/
def prefixesOf (p : Fpath) : List Fpath :=
  (List.range p.length).map (fun i => p.take (i + 1))

/-- One step of `mkdir(parents=True, exist_ok=True)`: ensure a single
prefix is a directory. -/
def mkdirStep (acc : FS) (pre : Fpath) : Except EngErr FS :=
  match FS.lookup acc pre with
  | some Entry.dir => Except.ok acc
  | none => Except.ok (FS.insert acc pre Entry.dir)
  | some _ => Except.error (EngErr.mkdirConflict pre)

/-- Python `Path.mkdir(parents=True, exist_ok=True)`: create every missing
prefix as a directory; an existing non-directory on the way raises. -/
def FS.mkdirParents (fs : FS) (p : Fpath) : Except EngErr FS :=
  (prefixesOf p).foldlM mkdirStep fs

/-! ### Scenes and name resolution -/

/-- One source file of a scene: absolute path and basename, as delivered
by the catalog client. -/
structure SceneFile where
  path : Fpath
  basename : String
deriving DecidableEq

/-- A scene record (`Scene = id, title?, files` in the spec). -/
structure Scene where
  id : Option String
  title : Option String
  files : List SceneFile
deriving DecidableEq

/-- Index of the last dot in a character list, if any. -/
def lastDotIdx (l : List Char) : Option Nat :=
  match l.reverse.findIdx? (fun c => c = '.') with
  | none => none
  | some j => some (l.length - 1 - j)

/-- Python `PurePath.stem` on a single name component: the name without
its final extension (the extension counts only when the dot is neither
first nor last). -/
def pyStem (name : String) : String :=
  match lastDotIdx name.data with
  | none => name
  | some i =>
    if 0 < i ∧ i < name.data.length - 1 then String.mk (name.data.take i)
    else name

/-- Python `PurePath.suffix` on a single name component. -/
def pySuffix (name : String) : String :=
  match lastDotIdx name.data with
  | none => ""
  | some i =>
    if 0 < i ∧ i < name.data.length - 1 then String.mk (name.data.drop i)
    else ""

/-- Python truthiness of `scene.get(\x22title\x22)`: present and non-empty. -/
def titleTruthy (s : Scene) : Bool :=
  match s.title with
  | some t => if t = "" then false else true
  | none => false

/-- Embedding of `LinkFarmManager._get_link_name`
(linkfarm.py lines 39-51).  The basename is treated as a single path
component. -/
def _get_link_name (useTitle : Bool) (s : Scene) : String :=
  if useTitle && titleTruthy s then
    _sanitize_name (match s.title with | some t => t | none => "")
  else
    match s.files with
    | f :: _ => pyStem f.basename
    | [] => "scene_" ++ (match s.id with | some i => i | none => "unknown")

/-- Embedding of `LinkFarmManager._get_file_extension`
(linkfarm.py lines 53-58): the suffix of the first file's final path
component. -/
def _get_file_extension (s : Scene) : String :=
  match s.files with
  | f :: _ => pySuffix (match f.path.getLast? with | some c => c | none => "")
  | [] => ""

/-- The decimal numeral of a natural number (what Python interpolates for
the collision counter). -/
def decStr (n : Nat) : String :=
  if n = 0 then "0"
  else String.mk (((Nat.digits 10 n).map Nat.digitChar).reverse)

/-- The candidate link filename for collision index `i`: the base name for
`i = 0`, the base name with `_i` before the extension for `i ≥ 1`
(linkfarm.py lines 120 and 126). -/
def mkName (nm ext : String) (i : Nat) : String :=
  if i = 0 then nm ++ ext else nm ++ "_" ++ decStr i ++ ext

/-! ### The engine -/

/-- The structured per-path outcomes the engine reports (the console
messages of linkfarm.py, plus the silent already-correct success of
line 82, recorded so placements can be stated). -/
inductive Event where
  | warnMissingSource (source : Fpath)
  | wouldCreate (link source : Fpath)
  | overwriting (link : Fpath)
  | errorRegularFile (link : Fpath)
  | created (link source : Fpath)
  | alreadyCorrect (link source : Fpath)
  | removed (link : Fpath)
  | removeFailed (link : Fpath)
deriving DecidableEq

/-- Result of one `_create_symlink` call. -/
structure SymlinkResult where
  fs : FS
  ok : Bool
  events : List Event
deriving DecidableEq

/-- Embedding of `LinkFarmManager._create_symlink`
(linkfarm.py lines 60-100), with the category and item-name parameters
dropped (the source never reads them). -/
def _create_symlink (dryRun : Bool) (fs : FS) (source link : Fpath) :
    SymlinkResult :=
  if FS.existsAt fs source = false then
    ⟨fs, false, [Event.warnMissingSource source]⟩
  else if dryRun then
    ⟨fs, true, [Event.wouldCreate link source]⟩
  else
    match FS.lookup fs link with
    | some (Entry.symlink t) =>
      if t = source then ⟨fs, true, [Event.alreadyCorrect link source]⟩
      else
        ⟨FS.insert (FS.remove fs link) link (Entry.symlink source), true,
          [Event.overwriting link, Event.created link source]⟩
    | some _ => ⟨fs, false, [Event.errorRegularFile link]⟩
    | none =>
      ⟨FS.insert fs link (Entry.symlink source), true,
        [Event.created link source]⟩

/-- The collision loop of linkfarm.py lines 124-127, fuelled.  Probing a
candidate whose entry exists but is not a symbolic link models the
uncaught `OSError` that `Path.readlink` raises there. -/
def findSlot (fs : FS) (source dir : Fpath) (nm ext : String) :
    Nat → Nat → Except EngErr Fpath
  | 0, _ => Except.error EngErr.outOfFuel
  | fuel + 1, i =>
    let cand := dir ++ [mkName nm ext i]
    if FS.existsAt fs cand then
      match FS.lookup fs cand with
      | some (Entry.symlink t) =>
        if t = source then Except.ok cand
        else findSlot fs source dir nm ext fuel (i + 1)
      | _ => Except.error (EngErr.osRaise cand)
    else Except.ok cand

/-- Accumulated state of one `create_*_links` call: the filesystem, the
created count, and the reported outcomes. -/
structure RunState where
  fs : FS
  count : Nat
  events : List Event
deriving DecidableEq

/-- The per-scene body of the `create_tag_links` loop
(linkfarm.py lines 110-130). -/
def processTagScene (m_useTitle m_dryRun : Bool) (dir : Fpath)
    (st : RunState) (s : Scene) : Except EngErr RunState :=
  match s.files with
  | [] => Except.ok st
  | f :: _ =>
    let source := f.path
    let nm := _get_link_name m_useTitle s
    let ext := _get_file_extension s
    let candE : Except EngErr Fpath :=
      if m_dryRun then Except.ok (dir ++ [mkName nm ext 0])
      else findSlot st.fs source dir nm ext (st.fs.length + 1) 0
    match candE with
    | Except.error e => Except.error e
    | Except.ok cand =>
      let r := _create_symlink m_dryRun st.fs source cand
      Except.ok
        ⟨r.fs, st.count + (if r.ok then 1 else 0), st.events ++ r.events⟩

/-- The per-scene body of the `create_performer_links` loop
(linkfarm.py lines 148-168); the source duplicates the tag loop verbatim. -/
def processPerformerScene (m_useTitle m_dryRun : Bool) (dir : Fpath)
    (st : RunState) (s : Scene) : Except EngErr RunState :=
  match s.files with
  | [] => Except.ok st
  | f :: _ =>
    let source := f.path
    let nm := _get_link_name m_useTitle s
    let ext := _get_file_extension s
    let candE : Except EngErr Fpath :=
      if m_dryRun then Except.ok (dir ++ [mkName nm ext 0])
      else findSlot st.fs source dir nm ext (st.fs.length + 1) 0
    match candE with
    | Except.error e => Except.error e
    | Except.ok cand =>
      let r := _create_symlink m_dryRun st.fs source cand
      Except.ok
        ⟨r.fs, st.count + (if r.ok then 1 else 0), st.events ++ r.events⟩

/-- The engine's configuration (the `LinkFarmManager` fields). -/
structure Manager where
  farm : Fpath
  useTitle : Bool
  dryRun : Bool
deriving DecidableEq

/-- Embedding of `LinkFarmManager.__init__` (linkfarm.py lines 14-20):
the farm root is created unless in dry-run mode. -/
def initFarm (m : Manager) (fs : FS) : Except EngErr FS :=
  if m.dryRun then Except.ok fs else FS.mkdirParents fs m.farm

/-- Embedding of `LinkFarmManager.create_tag_links`
(linkfarm.py lines 102-134). -/
def create_tag_links (m : Manager) (fs : FS) (tagName : String)
    (scenes : List Scene) : Except EngErr RunState :=
  let dir := m.farm ++ ["tags", _sanitize_name tagName]
  match (if m.dryRun then Except.ok fs else FS.mkdirParents fs dir) with
  | Except.error e => Except.error e
  | Except.ok fs1 =>
    scenes.foldlM (processTagScene m.useTitle m.dryRun dir) ⟨fs1, 0, []⟩

/-- Embedding of `LinkFarmManager.create_performer_links`
(linkfarm.py lines 136-172). -/
def create_performer_links (m : Manager) (fs : FS) (performerName : String)
    (scenes : List Scene) : Except EngErr RunState :=
  let dir := m.farm ++ ["performers", _sanitize_name performerName]
  match (if m.dryRun then Except.ok fs else FS.mkdirParents fs dir) with
  | Except.error e => Except.error e
  | Except.ok fs1 =>
    scenes.foldlM (processPerformerScene m.useTitle m.dryRun dir) ⟨fs1, 0, []⟩

/-- The specification's unified `placeLinks` (spec section 4.1, design note
in section 9): one operation parametrized by the category subdirectory. -/
def placeLinks (sub : String) (m : Manager) (fs : FS) (itemName : String)
    (scenes : List Scene) : Except EngErr RunState :=
  let dir := m.farm ++ [sub, _sanitize_name itemName]
  match (if m.dryRun then Except.ok fs else FS.mkdirParents fs dir) with
  | Except.error e => Except.error e
  | Except.ok fs1 =>
    scenes.foldlM (processTagScene m.useTitle m.dryRun dir) ⟨fs1, 0, []⟩

/-! ### The dangling-link sweep -/

/-- The direct children of a directory path present in the store, in store
order. -/
def childPaths (fs : FS) (d : Fpath) : List Fpath :=
  (fs.map Prod.fst).filter
    (fun p => decide (p.length = d.length + 1 ∧ p.take d.length = d))

/-- The deepest path length present in the store. -/
def FS.maxDepth (fs : FS) : Nat :=
  fs.foldr (fun pe acc => max pe.1.length acc) 0

/-- The fuelled `os.walk` pass of `find_dangling_links`
(linkfarm.py lines 181-186): collect this directory's non-directory
children that are dangling symbolic links, then recurse into its real
subdirectories (symlinked directories are listed but not followed,
matching `followlinks=False`). -/
def walkDangling (fs : FS) : Nat → Fpath → List Fpath
  | 0, _ => []
  | fuel + 1, root =>
    let children := childPaths fs root
    let files := children.filter (fun p => !(FS.isDirAt fs p))
    let here :=
      files.filter (fun p => FS.isSymlink fs p && !(FS.existsAt fs p))
    let realDirs := children.filter
      (fun p => FS.isDirAt fs p && !(FS.isSymlink fs p))
    here ++ realDirs.foldr (fun d acc => walkDangling fs fuel d ++ acc) []

/-- Embedding of `LinkFarmManager.find_dangling_links`
(linkfarm.py lines 174-188).  A farm root that is itself a live symbolic
link to a directory is outside the model (the theorems assume the root is
a real directory or does not exist). -/
def find_dangling_links (m : Manager) (fs : FS) : List Fpath :=
  if FS.existsAt fs m.farm then
    match FS.lookup fs m.farm with
    | some Entry.dir => walkDangling fs (FS.maxDepth fs + 1) m.farm
    | _ => []
  else []

/-- Embedding of `LinkFarmManager.remove_dangling_links`
(linkfarm.py lines 190-197).  Note the source never reads the manager's
dry-run flag here. -/
def remove_dangling_links (_m : Manager) (fs : FS) (links : List Fpath) :
    RunState :=
  links.foldl (fun st p =>
    match FS.unlink st.fs p with
    | some fs2 => ⟨fs2, st.count, st.events ++ [Event.removed p]⟩
    | none => ⟨st.fs, st.count, st.events ++ [Event.removeFailed p]⟩)
    ⟨fs, 0, []⟩
/-- A store is tree-like when every entry's parent path is bound to a
directory (or the entry sits at the root of the path space), as on a real
filesystem. -/
abbrev TreeLike (fs : FS) : Prop :=
  ∀ pe ∈ fs, pe.1.dropLast = [] ∨ FS.lookup fs pe.1.dropLast = some Entry.dir



/-! ### Predicates for the collision-loop and idempotence analysis -/

/-- The collision-loop continue condition at a candidate path
(linkfarm.py lines 124-125): the entry is a symbolic link to some other
target. -/
def contB (fs : FS) (src c : Fpath) : Bool :=
  match FS.lookup fs c with
  | some (Entry.symlink t) => if t = src then false else true
  | _ => false

/-- The candidate link path for collision index `i`. -/
def candPath (dir : Fpath) (nm ext : String) (i : Nat) : Fpath :=
  dir ++ [mkName nm ext i]

/-- The item directory used by `create_tag_links`. -/
def tagDir (m : Manager) (tagName : String) : Fpath :=
  m.farm ++ ["tags", _sanitize_name tagName]

/-- The candidate link path of a scene within a tag run. -/
def sceneCand (m : Manager) (tagName : String) (s : Scene) (i : Nat) :
    Fpath :=
  candPath (tagDir m tagName) (_get_link_name m.useTitle s)
    (_get_file_extension s) i

/-- The item directory's link area is healthy: every entry directly under
it is a symbolic link to an existing regular file. -/
def AreaOK (dir : Fpath) (fs : FS) : Prop :=
  ∀ n e, FS.lookup fs (dir ++ [n]) = some e →
    ∃ t, e = Entry.symlink t ∧ FS.lookup fs t = some Entry.file

/-- Store extension: every existing binding is preserved. -/
def FsExt (fs fs2 : FS) : Prop :=
  ∀ p e, FS.lookup fs p = some e → FS.lookup fs2 p = some e

/-- A scene is satisfied in a store: its collision probe sequence reaches,
through occupied foreign slots only, a link to its own source. -/
def Sat (u : Bool) (dir : Fpath) (s : Scene) (fs : FS) : Prop :=
  ∀ f, s.files.head? = some f →
    ∃ k, FS.lookup fs
        (candPath dir (_get_link_name u s) (_get_file_extension s) k) =
        some (Entry.symlink f.path) ∧
      ∀ j, j < k →
        contB fs f.path
          (candPath dir (_get_link_name u s) (_get_file_extension s) j) =
          true

/-- Every scene's first source is a regular file in the store. -/
def SrcsOK (fs : FS) (scenes : List Scene) : Prop :=
  ∀ s ∈ scenes, ∀ f, s.files.head? = some f →
    FS.lookup fs f.path = some Entry.file

/-- Every non-empty prefix of the path is absent or a directory. -/
abbrev DirPrefixOK (fs : FS) (dir : Fpath) : Prop :=
  ∀ pre ∈ prefixesOf dir,
    FS.lookup fs pre = none ∨ FS.lookup fs pre = some Entry.dir

/-- Every non-empty prefix of the path is bound to a directory. -/
abbrev DirsMade (fs : FS) (dir : Fpath) : Prop :=
  ∀ pre ∈ prefixesOf dir, FS.lookup fs pre = some Entry.dir


/-- Sample manager for concrete instantiations. -/
def sampleM : Manager := ⟨["farm"], true, false⟩

/-- Sample store: two media files, no farm tree yet. -/
def sampleFS : FS :=
  [(["media", "a.mp4"], Entry.file), (["media", "b.mp4"], Entry.file)]

/-- A scene titled A backed by the first media file. -/
def sceneA : Scene := ⟨some "1", some "A", [⟨["media", "a.mp4"], "a.mp4"⟩]⟩

/-- A second scene also titled A, backed by the other media file. -/
def sceneB : Scene := ⟨some "2", some "A", [⟨["media", "b.mp4"], "b.mp4"⟩]⟩

/-! ### Lemmas and theorems -/

/-! Lemmas relating the source sanitizer to the spec-side one. -/

lemma trimLeftSpec_eq_dropWhile (l : List Char) :
    trimLeftSpec l = l.dropWhile isStripChar := by
  induction l with
  | nil => rfl
  | cons c cs ih =>
    simp only [trimLeftSpec, List.dropWhile_cons, ih]

lemma replaceL_underscore (cl : List Char) : replaceL cl '_' = '_' := by
  unfold replaceL; split <;> rfl

lemma foldl_replaceAllChar (cl : List Char) (s : List Char) :
    cl.foldl replaceAllChar s = s.map (replaceL cl) := by
  induction cl generalizing s with
  | nil =>
    simp only [List.foldl_nil, replaceL, List.mem_nil_iff, if_false]
    exact (List.map_id' s).symm
  | cons c cl ih =>
    simp only [List.foldl_cons, replaceAllChar, ih, List.map_map]
    refine List.map_congr_left (fun d _ => ?_)
    by_cases hdc : d = c
    · subst hdc
      simp only [Function.comp, if_pos rfl, replaceL_underscore]
      simp [replaceL]
    · simp only [Function.comp, if_neg hdc, replaceL, List.mem_cons]
      by_cases hdl : d ∈ cl
      · simp [hdl]
      · simp [hdl, hdc]

lemma sanitizeCore_eq_map (s : List Char) :
    sanitizeCore s = s.map replaceSpec := by
  rw [sanitizeCore, foldl_replaceAllChar]
  rfl

lemma trimSpec_eq_stripEnds (l : List Char) : trimSpec l = stripEnds l := by
  simp only [trimSpec, stripEnds, trimLeftSpec_eq_dropWhile]

/-! Structural facts about `stripEnds` needed for idempotence and the
component-safety invariant. -/

lemma dropWhile_dropWhile (p : Char → Bool) (l : List Char) :
    (l.dropWhile p).dropWhile p = l.dropWhile p := by
  induction l with
  | nil => rfl
  | cons c cs ih =>
    by_cases h : p c
    · simp only [List.dropWhile_cons, h, if_true, ih]
    · simp only [List.dropWhile_cons, h, if_false, Bool.false_eq_true]

lemma dropWhile_cons_self {p : Char → Bool} {c : Char} {t : List Char}
    (h : List.dropWhile p (c :: t) = c :: t) : p c = false := by
  by_contra hpc
  have hpc' : p c = true := by
    cases hc : p c
    · exact absurd hc hpc
    · rfl
  rw [List.dropWhile_cons, hpc', if_pos rfl] at h
  have hlen : (List.dropWhile p t).length ≤ t.length :=
    (List.dropWhile_suffix p).sublist.length_le
  rw [h] at hlen
  simp at hlen

lemma dropWhile_eq_self_of_pref {p : Char → Bool} {l l' : List Char}
    (h : List.dropWhile p l = l) (hp : l' <+: l) :
    List.dropWhile p l' = l' := by
  cases l' with
  | nil => rfl
  | cons c t =>
    obtain ⟨u, hu⟩ := hp
    have hl : l = c :: (t ++ u) := by rw [← hu]; rfl
    rw [hl] at h
    have hc := dropWhile_cons_self h
    rw [List.dropWhile_cons, hc]
    simp

lemma stripEnds_pref (l : List Char) :
    stripEnds l <+: l.dropWhile isStripChar := by
  unfold stripEnds
  conv_rhs => rw [← List.reverse_reverse (l.dropWhile isStripChar)]
  exact List.reverse_prefix.mpr (List.dropWhile_suffix isStripChar)

lemma dropWhile_stripEnds (l : List Char) :
    (stripEnds l).dropWhile isStripChar = stripEnds l :=
  dropWhile_eq_self_of_pref (dropWhile_dropWhile _ l) (stripEnds_pref l)

lemma stripEnds_stripEnds (l : List Char) :
    stripEnds (stripEnds l) = stripEnds l := by
  have h1 : (stripEnds l).dropWhile isStripChar = stripEnds l :=
    dropWhile_stripEnds l
  rw [stripEnds, h1, stripEnds, List.reverse_reverse, dropWhile_dropWhile]

lemma mem_stripEnds {c : Char} {l : List Char} (h : c ∈ stripEnds l) :
    c ∈ l := by
  have h1 : c ∈ l.dropWhile isStripChar :=
    (stripEnds_pref l).sublist.mem h
  exact (List.dropWhile_suffix isStripChar).sublist.mem h1

lemma head?_dropWhile (p : Char → Bool) (l : List Char) :
    ((l.dropWhile p).head?.all (fun c => !(p c))) = true := by
  induction l with
  | nil => rfl
  | cons c cs ih =>
    by_cases h : p c
    · simpa [List.dropWhile_cons, h] using ih
    · simp [List.dropWhile_cons, h]

lemma replaceSpec_fixed {c : Char} (h : c ∉ problematicChars) :
    replaceSpec c = c := by
  simp [replaceSpec, h]

lemma replaceSpec_not_problematic (c : Char) :
    replaceSpec c ∉ problematicChars := by
  by_cases h : c ∈ problematicChars
  · simp only [replaceSpec, if_pos h]
    decide
  · rw [replaceSpec, if_neg h]
    exact h

lemma replaceSpec_idem (c : Char) :
    replaceSpec (replaceSpec c) = replaceSpec c :=
  replaceSpec_fixed (replaceSpec_not_problematic c)

/-- Unfolding of `_sanitize_name` in the empty case. -/
lemma sanitize_name_of_empty {x : String}
    (h : stripEnds (sanitizeCore x.data) = []) :
    _sanitize_name x = "unnamed" := by
  unfold _sanitize_name
  simp [h]

/-- Unfolding of `_sanitize_name` in the non-empty case. -/
lemma sanitize_name_of_ne_empty {x : String}
    (h : stripEnds (sanitizeCore x.data) ≠ []) :
    _sanitize_name x = String.mk (stripEnds (sanitizeCore x.data)) := by
  unfold _sanitize_name
  simp [List.isEmpty_iff, h]

/-- C6 counterexample fact: a leading tab character survives
`_sanitize_name` even though it is whitespace, because the code strips
only dots and spaces. -/
theorem sanitize_tab_fact :
    (_sanitize_name (String.mk ['\t', 'a'])).data.head? = some '\t' ∧
    ('\t').isWhitespace = true := by
  constructor
  · rfl
  · decide

/-- C6 (amended): for every input string, `_sanitize_name` replaces each
occurrence of the problematic characters with an underscore, strips leading
and trailing dots and space characters, and returns the literal
placeholder when the result is empty; in particular the empty string and
a string of dots map to the placeholder, and slashes and colons become
underscores. -/
theorem sanitize_name_spec :
    (∀ s : String, _sanitize_name s = sanitizeSpec s) ∧
    _sanitize_name "" = "unnamed" ∧
    _sanitize_name "..." = "unnamed" ∧
    _sanitize_name "a/b:c" = "a_b_c" := by
  refine ⟨fun s => ?_, by decide, by decide, by decide⟩
  unfold _sanitize_name sanitizeSpec
  rw [sanitizeCore_eq_map, trimSpec_eq_stripEnds]
  simp [List.isEmpty_iff]

/-- C7: `_sanitize_name` is total (it is a Lean function) and idempotent:
applying it twice gives the same result as applying it once. -/
theorem sanitize_name_idempotent (x : String) :
    _sanitize_name (_sanitize_name x) = _sanitize_name x := by
  by_cases hx : stripEnds (sanitizeCore x.data) = []
  · rw [sanitize_name_of_empty hx]
    decide
  · rw [sanitize_name_of_ne_empty hx]
    set r := stripEnds (sanitizeCore x.data) with hr
    have hfix : ∀ c ∈ r, replaceSpec c = c := by
      intro c hc
      have hc1 : c ∈ sanitizeCore x.data := mem_stripEnds hc
      rw [sanitizeCore_eq_map] at hc1
      obtain ⟨d, _, hd⟩ := List.mem_map.mp hc1
      rw [← hd]
      exact replaceSpec_idem d
    have hcore : sanitizeCore r = r := by
      rw [sanitizeCore_eq_map]
      exact (List.map_congr_left hfix).trans (List.map_id' r)
    have hstrip : stripEnds r = r := by
      rw [hr]
      exact stripEnds_stripEnds _
    have hdata : (String.mk r).data = r := rfl
    rw [sanitize_name_of_ne_empty (by rw [hdata, hcore, hstrip]; exact hx),
      hdata, hcore, hstrip]

/-- C10: the result of `_sanitize_name` is always a non-empty string, free
of the problematic characters, that neither begins nor ends with a dot or
a space character. -/
theorem sanitize_name_component_safe (s : String) :
    (_sanitize_name s).data ≠ [] ∧
    (∀ c ∈ (_sanitize_name s).data, c ∉ problematicChars) ∧
    ((_sanitize_name s).data.head?.all (fun c => !(isStripChar c))) = true ∧
    ((_sanitize_name s).data.getLast?.all (fun c => !(isStripChar c))) = true
    := by
  by_cases hx : stripEnds (sanitizeCore s.data) = []
  · rw [sanitize_name_of_empty hx]
    refine ⟨by decide, ?_, by decide, by decide⟩
    intro c hc
    fin_cases hc <;> decide
  · rw [sanitize_name_of_ne_empty hx]
    have hdata : (String.mk (stripEnds (sanitizeCore s.data))).data
        = stripEnds (sanitizeCore s.data) := rfl
    rw [hdata]
    refine ⟨hx, ?_, ?_, ?_⟩
    · intro c hc
      have hc1 : c ∈ sanitizeCore s.data := mem_stripEnds hc
      rw [sanitizeCore_eq_map] at hc1
      obtain ⟨d, _, hd⟩ := List.mem_map.mp hc1
      rw [← hd]
      exact replaceSpec_not_problematic d
    · rw [← dropWhile_stripEnds]
      exact head?_dropWhile isStripChar _
    · rw [List.getLast?_eq_head?_reverse, stripEnds, List.reverse_reverse]
      exact head?_dropWhile isStripChar _

/-! ### C9: tags and performers run the same algorithm -/

lemma processPerformerScene_eq : processPerformerScene = processTagScene :=
  rfl

lemma create_tag_links_eq_placeLinks (m : Manager) (fs : FS)
    (itemName : String) (scenes : List Scene) :
    create_tag_links m fs itemName scenes =
      placeLinks "tags" m fs itemName scenes := rfl

lemma create_performer_links_eq_placeLinks (m : Manager) (fs : FS)
    (itemName : String) (scenes : List Scene) :
    create_performer_links m fs itemName scenes =
      placeLinks "performers" m fs itemName scenes := rfl

/-- C9: `create_tag_links` and `create_performer_links` are the same
operation up to the top-level subdirectory: each equals the unified
`placeLinks` at its category subdirectory, so for every manager,
filesystem, item name and scene list they make identical naming,
collision-suffix and link-creation decisions and produce identical
created counts. -/
theorem tag_performer_links_agree :
    (∀ (m : Manager) (fs : FS) (itemName : String) (scenes : List Scene),
      create_tag_links m fs itemName scenes =
        placeLinks "tags" m fs itemName scenes) ∧
    (∀ (m : Manager) (fs : FS) (itemName : String) (scenes : List Scene),
      create_performer_links m fs itemName scenes =
        placeLinks "performers" m fs itemName scenes) :=
  ⟨fun m fs n ss => create_tag_links_eq_placeLinks m fs n ss,
   fun m fs n ss => create_performer_links_eq_placeLinks m fs n ss⟩

/-! ### C1: dry-run behaviour -/

lemma create_symlink_dryRun_fs (fs : FS) (source link : Fpath) :
    (_create_symlink true fs source link).fs = fs := by
  unfold _create_symlink
  split <;> rfl

lemma processTagScene_dryRun (u : Bool) (dir : Fpath) (st : RunState)
    (s : Scene) :
    ∃ st2, processTagScene u true dir st s = Except.ok st2 ∧
      st2.fs = st.fs := by
  unfold processTagScene
  cases hf : s.files with
  | nil => exact ⟨st, rfl, rfl⟩
  | cons f fl =>
    refine ⟨_, rfl, ?_⟩
    exact create_symlink_dryRun_fs st.fs f.path _

lemma foldlM_processTagScene_dryRun (u : Bool) (dir : Fpath)
    (scenes : List Scene) :
    ∀ st : RunState,
      ∃ st2, scenes.foldlM (processTagScene u true dir) st = Except.ok st2 ∧
        st2.fs = st.fs := by
  induction scenes with
  | nil => exact fun st => ⟨st, rfl, rfl⟩
  | cons s ss ih =>
    intro st
    obtain ⟨st1, h1, hfs1⟩ := processTagScene_dryRun u dir st s
    obtain ⟨st2, h2, hfs2⟩ := ih st1
    refine ⟨st2, ?_, hfs2.trans hfs1⟩
    rw [List.foldlM_cons, h1]
    exact h2

/-- C1 (amended): with the dry-run flag set, initialization,
`create_tag_links` and `create_performer_links` leave the filesystem
completely unchanged, for every input (`find_dangling_links` mutates
nothing by the shape of its type: it only returns a list of paths).
`remove_dangling_links` is the exception the original claim misses: it
never consults the flag; see the counterexample. -/
theorem dry_run_no_mutation (m : Manager) (h : m.dryRun = true)
    (fs : FS) (itemName : String) (scenes : List Scene) :
    initFarm m fs = Except.ok fs ∧
    (∃ st, create_tag_links m fs itemName scenes = Except.ok st ∧
      st.fs = fs) ∧
    (∃ st, create_performer_links m fs itemName scenes = Except.ok st ∧
      st.fs = fs) := by
  refine ⟨by simp [initFarm, h], ?_, ?_⟩
  · unfold create_tag_links
    rw [h]
    simpa using foldlM_processTagScene_dryRun m.useTitle
      (m.farm ++ ["tags", _sanitize_name itemName]) scenes ⟨fs, 0, []⟩
  · unfold create_performer_links
    rw [h, processPerformerScene_eq]
    simpa using foldlM_processTagScene_dryRun m.useTitle
      (m.farm ++ ["performers", _sanitize_name itemName]) scenes ⟨fs, 0, []⟩

/-- C1 witness: the amended dry-run theorem applied to a concrete
manager, filesystem, item and scene list. -/
theorem dry_run_no_mutation_witness :
    initFarm ⟨["farm"], true, true⟩ [(["media", "a.mp4"], Entry.file)] =
      Except.ok [(["media", "a.mp4"], Entry.file)] ∧
    (∃ st, create_tag_links ⟨["farm"], true, true⟩
        [(["media", "a.mp4"], Entry.file)] "t"
        [⟨some "1", some "A", [⟨["media", "a.mp4"], "a.mp4"⟩]⟩] =
        Except.ok st ∧ st.fs = [(["media", "a.mp4"], Entry.file)]) ∧
    (∃ st, create_performer_links ⟨["farm"], true, true⟩
        [(["media", "a.mp4"], Entry.file)] "t"
        [⟨some "1", some "A", [⟨["media", "a.mp4"], "a.mp4"⟩]⟩] =
        Except.ok st ∧ st.fs = [(["media", "a.mp4"], Entry.file)]) :=
  dry_run_no_mutation ⟨["farm"], true, true⟩ rfl
    [(["media", "a.mp4"], Entry.file)] "t"
    [⟨some "1", some "A", [⟨["media", "a.mp4"], "a.mp4"⟩]⟩]

/-- C1 counterexample: `remove_dangling_links` invoked on a manager whose
dry-run flag is set still removes the given link, so the claim as stated
(every listed engine operation leaves the filesystem unchanged under
dry-run) is false. -/
theorem remove_dangling_ignores_dry_run :
    (Manager.dryRun ⟨["farm"], true, true⟩ = true) ∧
    (remove_dangling_links ⟨["farm"], true, true⟩
        [(["farm"], Entry.dir), (["farm", "x"], Entry.symlink ["gone"])]
        [["farm", "x"]]).fs = [(["farm"], Entry.dir)] ∧
    [(["farm"], Entry.dir)] ≠
      [(["farm"], Entry.dir), (["farm", "x"], Entry.symlink ["gone"])] := by
  refine ⟨rfl, rfl, ?_⟩
  decide

/-! ### C5: a regular file at the candidate location aborts the batch -/

/-- C5 (code evaluation at the failing input): with an existing source and
a regular file occupying the candidate link location, the non-dry-run
`create_tag_links` call aborts with the uncaught `OSError` raised by
`readlink` in the collision loop, instead of reporting the per-item error
and continuing; the per-item branch of `_create_symlink` (which would
report the error and leave the file untouched) is unreachable from the
loop. -/
theorem regular_file_aborts_batch :
    create_tag_links ⟨["farm"], true, false⟩
      [(["media", "a.mp4"], Entry.file), (["farm"], Entry.dir),
       (["farm", "tags"], Entry.dir), (["farm", "tags", "t"], Entry.dir),
       (["farm", "tags", "t", "A.mp4"], Entry.file)]
      "t"
      [⟨some "1", some "A", [⟨["media", "a.mp4"], "a.mp4"⟩]⟩,
       ⟨some "2", some "B", [⟨["media", "a.mp4"], "a.mp4"⟩]⟩]
      = Except.error (EngErr.osRaise ["farm", "tags", "t", "A.mp4"]) ∧
    _create_symlink false
      [(["media", "a.mp4"], Entry.file), (["farm"], Entry.dir),
       (["farm", "tags"], Entry.dir), (["farm", "tags", "t"], Entry.dir),
       (["farm", "tags", "t", "A.mp4"], Entry.file)]
      ["media", "a.mp4"] ["farm", "tags", "t", "A.mp4"]
      = ⟨[(["media", "a.mp4"], Entry.file), (["farm"], Entry.dir),
          (["farm", "tags"], Entry.dir), (["farm", "tags", "t"], Entry.dir),
          (["farm", "tags", "t", "A.mp4"], Entry.file)], false,
         [Event.errorRegularFile ["farm", "tags", "t", "A.mp4"]]⟩ := by
  constructor
  · rfl
  · rfl

/-! ### C8: characterization of the dangling-link sweep -/

lemma lookup_mem {fs : FS} {p : Fpath} {e : Entry}
    (h : FS.lookup fs p = some e) : (p, e) ∈ fs := by
  induction fs with
  | nil => simp [FS.lookup] at h
  | cons pe rest ih =>
    obtain ⟨q, e2⟩ := pe
    by_cases hq : p = q
    · subst hq
      rw [FS.lookup, if_pos rfl] at h
      cases h
      exact List.mem_cons_self _ _
    · rw [FS.lookup, if_neg hq] at h
      exact List.mem_cons_of_mem _ (ih h)

lemma lookup_mem_keys {fs : FS} {p : Fpath} {e : Entry}
    (h : FS.lookup fs p = some e) : p ∈ fs.map Prod.fst :=
  List.mem_map.mpr ⟨(p, e), lookup_mem h, rfl⟩

lemma length_le_maxDepth {fs : FS} {p : Fpath} {e : Entry}
    (h : FS.lookup fs p = some e) : p.length ≤ FS.maxDepth fs := by
  induction fs with
  | nil => simp [FS.lookup] at h
  | cons pe rest ih =>
    obtain ⟨q, e2⟩ := pe
    by_cases hq : p = q
    · subst hq
      simp [FS.maxDepth]
    · rw [FS.lookup, if_neg hq] at h
      calc p.length ≤ FS.maxDepth rest := ih h
        _ ≤ FS.maxDepth ((q, e2) :: rest) := by simp [FS.maxDepth]

lemma resolveDirB_imp (fs : FS) :
    ∀ (fuel : Nat) (p : Fpath),
      FS.resolveDirB fs fuel p = true → FS.resolveB fs fuel p = true := by
  intro fuel
  induction fuel with
  | zero => intro p h; simp [FS.resolveDirB] at h
  | succ n ih =>
    intro p h
    rw [FS.resolveDirB] at h
    rw [FS.resolveB]
    cases hl : FS.lookup fs p with
    | none => rw [hl] at h; exact h
    | some e =>
      rw [hl] at h
      cases e with
      | dir => rfl
      | file => rfl
      | symlink t => exact ih t h

lemma isDirAt_imp_exists {fs : FS} {p : Fpath}
    (h : FS.isDirAt fs p = true) : FS.existsAt fs p = true :=
  resolveDirB_imp fs _ p h

lemma isDirAt_of_lookup_dir {fs : FS} {p : Fpath}
    (h : FS.lookup fs p = some Entry.dir) : FS.isDirAt fs p = true := by
  rw [FS.isDirAt, FS.resolveDirB, h]

lemma isSymlink_false_of_lookup_dir {fs : FS} {p : Fpath}
    (h : FS.lookup fs p = some Entry.dir) : FS.isSymlink fs p = false := by
  rw [FS.isSymlink, h]

lemma lookup_dir_of_flags {fs : FS} {p : Fpath}
    (h1 : FS.isDirAt fs p = true) (h2 : FS.isSymlink fs p = false) :
    FS.lookup fs p = some Entry.dir := by
  rw [FS.isDirAt, FS.resolveDirB] at h1
  cases hl : FS.lookup fs p with
  | none => rw [hl] at h1; exact absurd h1 (by simp)
  | some e =>
    rw [hl] at h1
    cases e with
    | dir => rfl
    | file => exact absurd h1 (by simp)
    | symlink t =>
      rw [FS.isSymlink, hl] at h2
      exact absurd h2 (by simp)

lemma lookup_symlink_of_isSymlink {fs : FS} {p : Fpath}
    (h : FS.isSymlink fs p = true) :
    ∃ t, FS.lookup fs p = some (Entry.symlink t) := by
  rw [FS.isSymlink] at h
  cases hl : FS.lookup fs p with
  | none => rw [hl] at h; exact absurd h (by simp)
  | some e =>
    rw [hl] at h
    cases e with
    | dir => exact absurd h (by simp)
    | file => exact absurd h (by simp)
    | symlink t => exact ⟨t, rfl⟩

lemma mem_childPaths {fs : FS} {d p : Fpath} :
    p ∈ childPaths fs d ↔
      (p ∈ fs.map Prod.fst ∧ p.length = d.length + 1 ∧
        p.take d.length = d) := by
  unfold childPaths
  rw [List.mem_filter, decide_eq_true_eq]

lemma mem_foldr_append (f : Fpath → List Fpath) (ds : List Fpath)
    (p : Fpath) :
    p ∈ ds.foldr (fun d acc => f d ++ acc) [] ↔ ∃ d ∈ ds, p ∈ f d := by
  induction ds with
  | nil => simp
  | cons d ds ih => simp [ih]

lemma take_dir_of_lookup (fs : FS) (htree : TreeLike fs) :
    ∀ (n : Nat) (p : Fpath) (e : Entry), FS.lookup fs p = some e →
      ∀ j, 0 < j → j + n + 1 = p.length →
      FS.lookup fs (p.take j) = some Entry.dir := by
  intro n
  induction n with
  | zero =>
    intro p e hp j hj hlen
    rcases htree (p, e) (lookup_mem hp) with hnil | hdir
    · exfalso
      have := congrArg List.length hnil
      rw [List.length_dropLast] at this
      simp at this
      omega
    · have hjl : j = p.length - 1 := by omega
      rw [hjl, ← List.dropLast_eq_take]
      exact hdir
  | succ m ih =>
    intro p e hp j hj hlen
    rcases htree (p, e) (lookup_mem hp) with hnil | hdir
    · exfalso
      have := congrArg List.length hnil
      rw [List.length_dropLast] at this
      simp at this
      omega
    · have hq := ih p.dropLast Entry.dir hdir j hj
        (by rw [List.length_dropLast]; omega)
      rw [List.dropLast_eq_take, List.take_take] at hq
      have hmin : min j (p.length - 1) = j := by omega
      rw [hmin] at hq
      exact hq

lemma walkDangling_char (fs : FS) (htree : TreeLike fs) :
    ∀ (fuel : Nat) (root : Fpath),
      FS.lookup fs root = some Entry.dir →
      FS.maxDepth fs < root.length + fuel →
      ∀ p, p ∈ walkDangling fs fuel root ↔
        (FS.isSymlink fs p = true ∧ FS.existsAt fs p = false ∧
          root <+: p ∧ p ≠ root) := by
  intro fuel
  induction fuel with
  | zero =>
    intro root _ hb p
    constructor
    · intro h
      simp [walkDangling] at h
    · rintro ⟨h1, _, h3, _⟩
      exfalso
      obtain ⟨t, ht⟩ := lookup_symlink_of_isSymlink h1
      have hle := length_le_maxDepth ht
      have hpl := h3.length_le
      omega
  | succ n ih =>
    intro root hroot hb p
    rw [walkDangling]
    simp only [List.mem_append, mem_foldr_append, List.mem_filter]
    constructor
    · rintro (⟨⟨hchild, hnd⟩, hflags⟩ | ⟨d, ⟨hdchild, hdflags⟩, hwalk⟩)
      · rw [mem_childPaths] at hchild
        obtain ⟨hmem, hlen, htake⟩ := hchild
        rw [Bool.and_eq_true] at hflags
        refine ⟨hflags.1, by simpa using hflags.2, ?_, ?_⟩
        · rw [← htake]; exact List.take_prefix _ _
        · intro hpr
          rw [hpr] at hlen
          omega
      · rw [mem_childPaths] at hdchild
        obtain ⟨hdmem, hdlen, hdtake⟩ := hdchild
        rw [Bool.and_eq_true] at hdflags
        have hddir : FS.lookup fs d = some Entry.dir :=
          lookup_dir_of_flags hdflags.1 (by simpa using hdflags.2)
        have hIH := (ih d hddir (by omega) p).mp hwalk
        obtain ⟨h1, h2, h3, h4⟩ := hIH
        refine ⟨h1, h2, ?_, ?_⟩
        · refine List.IsPrefix.trans ?_ h3
          rw [← hdtake]; exact List.take_prefix _ _
        · intro hpr
          have := h3.length_le
          rw [hpr] at this
          omega
    · rintro ⟨h1, h2, h3, h4⟩
      obtain ⟨t, ht⟩ := lookup_symlink_of_isSymlink h1
      have hple := h3.length_le
      have hplen : root.length < p.length := by
        rcases Nat.lt_or_ge root.length p.length with h | h
        · exact h
        · exfalso
          exact h4 ((List.IsPrefix.eq_of_length h3 (by omega)).symm)
      have htake : p.take root.length = root :=
        (List.prefix_iff_eq_take.mp h3).symm
      by_cases hlen : p.length = root.length + 1
      · left
        refine ⟨⟨mem_childPaths.mpr ⟨lookup_mem_keys ht, hlen, htake⟩, ?_⟩, ?_⟩
        · have : FS.isDirAt fs p = false := by
            cases hd : FS.isDirAt fs p
            · rfl
            · rw [isDirAt_imp_exists hd] at h2; cases h2
          simp [this]
        · simp [h1, h2]
      · right
        set q := p.take (root.length + 1) with hqdef
        have hqdir : FS.lookup fs q = some Entry.dir := by
          refine take_dir_of_lookup fs htree (p.length - root.length - 2) p
            (Entry.symlink t) ht (root.length + 1) (by omega) (by omega)
        have hqlen : q.length = root.length + 1 := by
          rw [hqdef, List.length_take]; omega
        have hqtake : q.take root.length = root := by
          rw [hqdef, List.take_take]
          have : min root.length (root.length + 1) = root.length := by omega
          rw [this, htake]
        refine ⟨q, ⟨mem_childPaths.mpr ⟨lookup_mem_keys hqdir, hqlen, hqtake⟩,
          ?_⟩, ?_⟩
        · rw [Bool.and_eq_true]
          exact ⟨isDirAt_of_lookup_dir hqdir,
            by simp [isSymlink_false_of_lookup_dir hqdir]⟩
        · refine (ih q hqdir (by omega) p).mpr ⟨h1, h2, ?_, ?_⟩
          · rw [hqdef]; exact List.take_prefix _ _
          · intro hpq
            exact hlen (by rw [hpq]; exact hqlen)

/-- C8: `find_dangling_links` returns the empty list when the farm root
does not exist; and on a tree-like store whose farm root is a directory,
it returns exactly the paths strictly under the farm root that are
symbolic links whose targets do not resolve to an existing entry —
non-symlink entries and valid symlinks are excluded.  (The operation
performs no mutation by the shape of its type: it only produces a list of
paths; the order is the depth-first directory-then-children order of the
embedded walk.) -/
theorem find_dangling_links_char (m : Manager) (fs : FS)
    (htree : TreeLike fs) (hroot : FS.lookup fs m.farm = some Entry.dir) :
    (∀ fs2 : FS, FS.existsAt fs2 m.farm = false →
      find_dangling_links m fs2 = []) ∧
    (∀ p, p ∈ find_dangling_links m fs ↔
      (FS.isSymlink fs p = true ∧ FS.existsAt fs p = false ∧
        m.farm <+: p ∧ p ≠ m.farm)) := by
  constructor
  · intro fs2 h
    rw [find_dangling_links, h]
    rfl
  · intro p
    have hex : FS.existsAt fs m.farm = true := isDirAt_imp_exists
      (isDirAt_of_lookup_dir hroot)
    rw [find_dangling_links, hex, if_pos rfl, hroot]
    exact walkDangling_char fs htree (FS.maxDepth fs + 1) m.farm hroot
      (by omega) p

/-- C8 witness: the characterization applied to a concrete farm holding
one valid symlink and one symlink to a deleted file; only the latter is
reported. -/
theorem find_dangling_links_char_witness :
    TreeLike
      [(["farm"], Entry.dir), (["media", "a.mp4"], Entry.file),
       (["media"], Entry.dir),
       (["farm", "ok"], Entry.symlink ["media", "a.mp4"]),
       (["farm", "bad"], Entry.symlink ["media", "gone"])] ∧
    (["farm", "bad"] ∈ find_dangling_links ⟨["farm"], true, false⟩
      [(["farm"], Entry.dir), (["media", "a.mp4"], Entry.file),
       (["media"], Entry.dir),
       (["farm", "ok"], Entry.symlink ["media", "a.mp4"]),
       (["farm", "bad"], Entry.symlink ["media", "gone"])] ↔
      (FS.isSymlink
          [(["farm"], Entry.dir), (["media", "a.mp4"], Entry.file),
           (["media"], Entry.dir),
           (["farm", "ok"], Entry.symlink ["media", "a.mp4"]),
           (["farm", "bad"], Entry.symlink ["media", "gone"])]
          ["farm", "bad"] = true ∧
        FS.existsAt
          [(["farm"], Entry.dir), (["media", "a.mp4"], Entry.file),
           (["media"], Entry.dir),
           (["farm", "ok"], Entry.symlink ["media", "a.mp4"]),
           (["farm", "bad"], Entry.symlink ["media", "gone"])]
          ["farm", "bad"] = false ∧
        ["farm"] <+: ["farm", "bad"] ∧ ["farm", "bad"] ≠ ["farm"])) :=
  ⟨by decide,
   (find_dangling_links_char ⟨["farm"], true, false⟩
     [(["farm"], Entry.dir), (["media", "a.mp4"], Entry.file),
      (["media"], Entry.dir),
      (["farm", "ok"], Entry.symlink ["media", "a.mp4"]),
      (["farm", "bad"], Entry.symlink ["media", "gone"])]
     (by decide) rfl).2 ["farm", "bad"]⟩

/-! ### Store lemmas for the collision analysis -/

lemma remove_of_lookup_none {fs : FS} {p : Fpath}
    (h : FS.lookup fs p = none) : FS.remove fs p = fs := by
  induction fs with
  | nil => rfl
  | cons pe rest ih =>
    obtain ⟨q, e⟩ := pe
    by_cases hq : p = q
    · subst hq
      rw [FS.lookup, if_pos rfl] at h
      cases h
    · rw [FS.lookup, if_neg hq] at h
      rw [FS.remove, if_neg (fun hc => hq hc.symm), ih h]

lemma insert_eq_cons {fs : FS} {p : Fpath} (e : Entry)
    (h : FS.lookup fs p = none) : FS.insert fs p e = (p, e) :: fs := by
  rw [FS.insert, remove_of_lookup_none h]

lemma lookup_cons_self {fs : FS} {p : Fpath} {e : Entry} :
    FS.lookup ((p, e) :: fs) p = some e := by
  rw [FS.lookup, if_pos rfl]

lemma lookup_cons_of_ne {fs : FS} {p q : Fpath} {e : Entry} (h : p ≠ q) :
    FS.lookup ((q, e) :: fs) p = FS.lookup fs p := by
  rw [FS.lookup, if_neg h]

lemma FsExt_refl (fs : FS) : FsExt fs fs := fun _ _ h => h

lemma FsExt_trans {fs1 fs2 fs3 : FS} (h1 : FsExt fs1 fs2)
    (h2 : FsExt fs2 fs3) : FsExt fs1 fs3 :=
  fun p e h => h2 p e (h1 p e h)

lemma FsExt_cons_fresh {fs : FS} {c : Fpath} (e : Entry)
    (h : FS.lookup fs c = none) : FsExt fs ((c, e) :: fs) := by
  intro p e2 hp
  by_cases hpc : p = c
  · subst hpc
    rw [hp] at h
    cases h
  · rw [lookup_cons_of_ne hpc]
    exact hp

lemma resolveB_pos_file {fs : FS} {t : Fpath} (fuel : Nat)
    (hfuel : 0 < fuel) (h : FS.lookup fs t = some Entry.file) :
    FS.resolveB fs fuel t = true := by
  cases fuel with
  | zero => omega
  | succ n => rw [FS.resolveB, h]

lemma existsAt_none {fs : FS} {p : Fpath} (h : FS.lookup fs p = none) :
    FS.existsAt fs p = false := by
  rw [FS.existsAt, FS.resolveB, h]

lemma existsAt_file {fs : FS} {p : Fpath}
    (h : FS.lookup fs p = some Entry.file) : FS.existsAt fs p = true :=
  resolveB_pos_file _ (by omega) h

lemma existsAt_symlink_file {fs : FS} {p t : Fpath}
    (h1 : FS.lookup fs p = some (Entry.symlink t))
    (h2 : FS.lookup fs t = some Entry.file) : FS.existsAt fs p = true := by
  rw [FS.existsAt, FS.resolveB, h1]
  have hpos : 0 < fs.length :=
    List.length_pos_of_mem (lookup_mem h1)
  exact resolveB_pos_file fs.length hpos h2

lemma contB_true_iff {fs : FS} {src c : Fpath} :
    contB fs src c = true ↔
      ∃ t, FS.lookup fs c = some (Entry.symlink t) ∧ t ≠ src := by
  unfold contB
  cases hl : FS.lookup fs c with
  | none => simp
  | some e =>
    cases e with
    | dir => simp
    | file => simp
    | symlink t =>
      by_cases ht : t = src
      · subst ht
        simp
      · simp [ht]

lemma contB_false_of_none {fs : FS} {src c : Fpath}
    (h : FS.lookup fs c = none) : contB fs src c = false := by
  unfold contB
  rw [h]

lemma contB_false_of_self {fs : FS} {src c : Fpath}
    (h : FS.lookup fs c = some (Entry.symlink src)) :
    contB fs src c = false := by
  unfold contB
  rw [h]
  show (if src = src then false else true) = false
  rw [if_pos rfl]

lemma contB_mono {fs fs2 : FS} {src c : Fpath} (hext : FsExt fs fs2)
    (h : contB fs src c = true) : contB fs2 src c = true := by
  obtain ⟨t, hl, ht⟩ := contB_true_iff.mp h
  exact contB_true_iff.mpr ⟨t, hext _ _ hl, ht⟩

lemma Sat_mono {u : Bool} {dir : Fpath} {s : Scene} {fs fs2 : FS}
    (hext : FsExt fs fs2) (h : Sat u dir s fs) : Sat u dir s fs2 := by
  intro f hf
  obtain ⟨k, hk, hmin⟩ := h f hf
  exact ⟨k, hext _ _ hk, fun j hj => contB_mono hext (hmin j hj)⟩

/-! ### Injectivity of the candidate names -/

lemma digitChar_inj_lt :
    ∀ x : Nat, x < 10 → ∀ y : Nat, y < 10 →
      Nat.digitChar x = Nat.digitChar y → x = y := by decide

lemma map_digitChar_inj :
    ∀ l1 l2 : List Nat, (∀ x ∈ l1, x < 10) → (∀ x ∈ l2, x < 10) →
      l1.map Nat.digitChar = l2.map Nat.digitChar → l1 = l2 := by
  intro l1
  induction l1 with
  | nil =>
    intro l2 _ _ h
    cases l2 with
    | nil => rfl
    | cons b bs => simp at h
  | cons a as ih =>
    intro l2 h1 h2 h
    cases l2 with
    | nil => simp at h
    | cons b bs =>
      simp only [List.map_cons, List.cons.injEq] at h
      have ha : a = b := digitChar_inj_lt a (h1 a (by simp)) b
        (h2 b (by simp)) h.1
      have hs : as = bs := ih bs (fun x hx => h1 x (by simp [hx]))
        (fun x hx => h2 x (by simp [hx])) h.2
      rw [ha, hs]

lemma decStr_data_len_pos (n : Nat) : 0 < (decStr n).data.length := by
  unfold decStr
  by_cases h : n = 0
  · simp [h]
  · rw [if_neg h]
    have hne : Nat.digits 10 n ≠ [] := Nat.digits_ne_nil_iff_ne_zero.mpr h
    simp only [String.mk]
    rw [List.length_reverse, List.length_map]
    exact List.length_pos_of_ne_nil hne

lemma digits_reverse_ne_zero_str {b : Nat} (hb : b ≠ 0)
    (h : ((Nat.digits 10 b).map Nat.digitChar).reverse = ['0']) :
    False := by
  have hmap : (Nat.digits 10 b).map Nat.digitChar = ['0'] := by
    rw [← List.reverse_reverse ((Nat.digits 10 b).map Nat.digitChar), h]
    rfl
  have hd : Nat.digits 10 b = [0] :=
    map_digitChar_inj _ [0] (fun x hx => Nat.digits_lt_base (by omega) hx)
      (by intro x hx; simp at hx; omega) (by rw [hmap]; rfl)
  have hof := Nat.ofDigits_digits 10 b
  rw [hd] at hof
  simp [Nat.ofDigits] at hof
  exact hb hof.symm

lemma decStr_data_inj {a b : Nat}
    (h : (decStr a).data = (decStr b).data) : a = b := by
  unfold decStr at h
  by_cases ha : a = 0 <;> by_cases hb : b = 0
  · rw [ha, hb]
  · exfalso
    rw [if_pos ha, if_neg hb] at h
    have h2 : ['0'] = ((Nat.digits 10 b).map Nat.digitChar).reverse := h
    exact digits_reverse_ne_zero_str hb h2.symm
  · exfalso
    rw [if_neg ha, if_pos hb] at h
    have h2 : ((Nat.digits 10 a).map Nat.digitChar).reverse = ['0'] := h
    exact digits_reverse_ne_zero_str ha h2
  · rw [if_neg ha, if_neg hb] at h
    have h2 : ((Nat.digits 10 a).map Nat.digitChar).reverse =
        ((Nat.digits 10 b).map Nat.digitChar).reverse := h
    have hmap : (Nat.digits 10 a).map Nat.digitChar =
        (Nat.digits 10 b).map Nat.digitChar := by
      rw [← List.reverse_reverse ((Nat.digits 10 a).map Nat.digitChar), h2,
        List.reverse_reverse]
    have hd := map_digitChar_inj _ _
      (fun x hx => Nat.digits_lt_base (by omega) hx)
      (fun x hx => Nat.digits_lt_base (by omega) hx) hmap
    exact Nat.digits_inj_iff.mp hd

lemma mkName_inj (nm ext : String) {i j : Nat}
    (h : mkName nm ext i = mkName nm ext j) : i = j := by
  have hd := congrArg String.data h
  unfold mkName at hd
  rcases Nat.eq_zero_or_pos i with hi | hi <;>
    rcases Nat.eq_zero_or_pos j with hj | hj
  · rw [hi, hj]
  · exfalso
    rw [if_pos hi, if_neg (by omega)] at hd
    simp only [String.data_append] at hd
    have := congrArg List.length hd
    simp only [List.length_append] at this
    have hp := decStr_data_len_pos j
    omega
  · exfalso
    rw [if_neg (by omega), if_pos hj] at hd
    simp only [String.data_append] at hd
    have := congrArg List.length hd
    simp only [List.length_append] at this
    have hp := decStr_data_len_pos i
    omega
  · rw [if_neg (by omega), if_neg (by omega)] at hd
    simp only [String.data_append] at hd
    have h1 := List.append_cancel_right hd
    have h2 := List.append_cancel_left h1
    exact decStr_data_inj h2

lemma candPath_inj (dir : Fpath) (nm ext : String) {i j : Nat}
    (h : candPath dir nm ext i = candPath dir nm ext j) : i = j := by
  unfold candPath at h
  have h1 := List.append_cancel_left h
  injection h1 with h2 h3
  exact mkName_inj nm ext h2

lemma lookup_cands_bound (fs : FS) (dir : Fpath) (nm ext : String) :
    ∀ k, (∀ j, j < k → FS.lookup fs (candPath dir nm ext j) ≠ none) →
      k ≤ fs.length := by
  intro k h
  by_contra hk
  push_neg at hk
  have hinj : Function.Injective
      (fun j : Fin k => candPath dir nm ext (j : Nat)) := by
    intro a b hab
    exact Fin.ext (candPath_inj dir nm ext hab)
  have hmem : ∀ j : Fin k,
      candPath dir nm ext (j : Nat) ∈ fs.map Prod.fst := by
    intro j
    cases hl : FS.lookup fs (candPath dir nm ext (j : Nat)) with
    | none => exact absurd hl (h j j.2)
    | some e => exact lookup_mem_keys hl
  have h1 : (Finset.univ.image
      (fun j : Fin k => candPath dir nm ext (j : Nat))).card = k := by
    rw [Finset.card_image_of_injective _ hinj, Finset.card_univ,
      Fintype.card_fin]
  have h2 : (Finset.univ.image
      (fun j : Fin k => candPath dir nm ext (j : Nat))) ⊆
      (fs.map Prod.fst).toFinset := by
    intro x hx
    rw [Finset.mem_image] at hx
    obtain ⟨j, _, rfl⟩ := hx
    exact List.mem_toFinset.mpr (hmem j)
  have h3 := Finset.card_le_card h2
  have h4 := List.toFinset_card_le (fs.map Prod.fst)
  rw [List.length_map] at h4
  omega

/-! ### The collision loop under a healthy link area -/

lemma bool_ne_false {b : Bool} (h : b ≠ false) : b = true := by
  cases b with
  | false => exact absurd rfl h
  | true => rfl

lemma area_cand {dir : Fpath} {fs : FS} {nm ext : String} {i : Nat}
    {e : Entry} (harea : AreaOK dir fs)
    (h : FS.lookup fs (candPath dir nm ext i) = some e) :
    ∃ t, e = Entry.symlink t ∧ FS.lookup fs t = some Entry.file :=
  harea (mkName nm ext i) e h

lemma findSlot_reaches {fs : FS} {src dir : Fpath} {nm ext : String}
    (harea : AreaOK dir fs) {k : Nat}
    (hk : contB fs src (candPath dir nm ext k) = false)
    (hmin : ∀ j, j < k → contB fs src (candPath dir nm ext j) = true) :
    ∀ (fuel i : Nat), i ≤ k → k < i + fuel →
      findSlot fs src dir nm ext fuel i =
        Except.ok (candPath dir nm ext k) := by
  intro fuel
  induction fuel with
  | zero => intro i h1 h2; omega
  | succ n ih =>
    intro i h1 h2
    by_cases hik : i = k
    · subst hik
      cases hl : FS.lookup fs (candPath dir nm ext i) with
      | none =>
        rw [findSlot]
        rw [show (dir ++ [mkName nm ext i]) = candPath dir nm ext i from rfl]
        rw [existsAt_none hl]
        rfl
      | some e =>
        obtain ⟨t, rfl, htf⟩ := area_cand harea hl
        have hts : t = src := by
          by_contra hne
          rw [contB_true_iff.mpr ⟨t, hl, hne⟩] at hk
          cases hk
        rw [hts] at hl htf
        rw [findSlot]
        rw [show (dir ++ [mkName nm ext i]) = candPath dir nm ext i from rfl]
        rw [existsAt_symlink_file hl htf, if_pos rfl, hl]
        show (if src = src then _ else _) = _
        rw [if_pos rfl]
    · have hik2 : i < k := by omega
      obtain ⟨t, hl, hts⟩ := contB_true_iff.mp (hmin i hik2)
      obtain ⟨t2, he2, htf⟩ := area_cand harea hl
      injection he2 with h9
      rw [← h9] at htf
      rw [findSlot]
      rw [show (dir ++ [mkName nm ext i]) = candPath dir nm ext i from rfl]
      rw [existsAt_symlink_file hl htf, if_pos rfl, hl]
      show (if t = src then _ else _) = _
      rw [if_neg hts]
      exact ih (i + 1) (by omega) (by omega)

lemma findSlot_total (fs : FS) (src dir : Fpath) (nm ext : String)
    (harea : AreaOK dir fs) :
    ∃ k, k ≤ fs.length ∧
      contB fs src (candPath dir nm ext k) = false ∧
      (∀ j, j < k → contB fs src (candPath dir nm ext j) = true) ∧
      findSlot fs src dir nm ext (fs.length + 1) 0 =
        Except.ok (candPath dir nm ext k) := by
  have hex : ∃ k, contB fs src (candPath dir nm ext k) = false := by
    by_contra hno
    push_neg at hno
    have hall : ∀ j, j < fs.length + 1 →
        FS.lookup fs (candPath dir nm ext j) ≠ none := by
      intro j _
      obtain ⟨t, hl, _⟩ := contB_true_iff.mp (bool_ne_false (hno j))
      rw [hl]
      intro hc
      cases hc
    have := lookup_cands_bound fs dir nm ext (fs.length + 1) hall
    omega
  classical
  have hk0 : contB fs src (candPath dir nm ext (Nat.find hex)) = false :=
    Nat.find_spec hex
  have hmin : ∀ j, j < Nat.find hex →
      contB fs src (candPath dir nm ext j) = true :=
    fun j hj => bool_ne_false (Nat.find_min hex hj)
  have hbound : Nat.find hex ≤ fs.length := by
    refine lookup_cands_bound fs dir nm ext (Nat.find hex) ?_
    intro j hj
    obtain ⟨t, hl, _⟩ := contB_true_iff.mp (hmin j hj)
    rw [hl]
    intro hc
    cases hc
  exact ⟨Nat.find hex, hbound, hk0, hmin,
    findSlot_reaches harea hk0 hmin (fs.length + 1) 0 (by omega) (by omega)⟩

/-! ### The per-scene step under a healthy link area -/

lemma head?_eq_of_cons {s : Scene} {f : SceneFile} {rest : List SceneFile}
    (hf : s.files = f :: rest) : s.files.head? = some f := by
  rw [hf]
  rfl

lemma processTagScene_char (u : Bool) (dir : Fpath) (st : RunState)
    (s : Scene) (harea : AreaOK dir st.fs)
    (hsrc : ∀ f, s.files.head? = some f →
      FS.lookup st.fs f.path = some Entry.file) :
    ∃ st2, processTagScene u false dir st s = Except.ok st2 ∧
      AreaOK dir st2.fs ∧ FsExt st.fs st2.fs ∧ Sat u dir s st2.fs ∧
      ∃ tail, st2.events = st.events ++ tail ∧
        ∀ ev ∈ tail, ∃ l sp,
          (ev = Event.created l sp ∨ ev = Event.alreadyCorrect l sp) ∧
          FS.lookup st2.fs l = some (Entry.symlink sp) := by
  cases hf : s.files with
  | nil =>
    refine ⟨st, by simp [processTagScene, hf], harea, FsExt_refl _, ?_, [],
      by simp, by simp⟩
    intro f hfd
    rw [hf] at hfd
    cases hfd
  | cons f rest =>
    have hsrcf : FS.lookup st.fs f.path = some Entry.file :=
      hsrc f (head?_eq_of_cons hf)
    obtain ⟨k0, hkb, hk0, hmin, hslot⟩ := findSlot_total st.fs f.path dir
      (_get_link_name u s) (_get_file_extension s) harea
    have hred : processTagScene u false dir st s =
        Except.ok ⟨(_create_symlink false st.fs f.path
            (candPath dir (_get_link_name u s) (_get_file_extension s)
              k0)).fs,
          st.count + (if (_create_symlink false st.fs f.path
            (candPath dir (_get_link_name u s) (_get_file_extension s)
              k0)).ok then 1 else 0),
          st.events ++ (_create_symlink false st.fs f.path
            (candPath dir (_get_link_name u s) (_get_file_extension s)
              k0)).events⟩ := by
      simp only [processTagScene, hf]
      rw [hslot]
      rfl
    cases hl : FS.lookup st.fs
        (candPath dir (_get_link_name u s) (_get_file_extension s) k0) with
    | none =>
      have hcs : _create_symlink false st.fs f.path
          (candPath dir (_get_link_name u s) (_get_file_extension s) k0) =
          ⟨(candPath dir (_get_link_name u s) (_get_file_extension s) k0,
              Entry.symlink f.path) :: st.fs, true,
            [Event.created
              (candPath dir (_get_link_name u s) (_get_file_extension s) k0)
              f.path]⟩ := by
        unfold _create_symlink
        rw [existsAt_file hsrcf]
        rw [if_neg (show ¬(true = false) by simp)]
        rw [if_neg (show ¬(false = true) by simp)]
        rw [hl, insert_eq_cons _ hl]
      have hext : FsExt st.fs
          ((candPath dir (_get_link_name u s) (_get_file_extension s) k0,
            Entry.symlink f.path) :: st.fs) :=
        FsExt_cons_fresh _ hl
      refine ⟨⟨(candPath dir (_get_link_name u s) (_get_file_extension s) k0,
          Entry.symlink f.path) :: st.fs, st.count + 1,
          st.events ++ [Event.created
            (candPath dir (_get_link_name u s) (_get_file_extension s) k0)
            f.path]⟩,
        by rw [hred, hcs]; rfl, ?_, hext, ?_,
        [Event.created
          (candPath dir (_get_link_name u s) (_get_file_extension s) k0)
          f.path], rfl, ?_⟩
      · intro n e h
        by_cases hc : dir ++ [n] =
            candPath dir (_get_link_name u s) (_get_file_extension s) k0
        · rw [hc, lookup_cons_self] at h
          cases h
          refine ⟨f.path, rfl, ?_⟩
          have hfc : f.path ≠
              candPath dir (_get_link_name u s) (_get_file_extension s)
                k0 := by
            intro hcc
            rw [hcc, hl] at hsrcf
            cases hsrcf
          rw [lookup_cons_of_ne hfc]
          exact hsrcf
        · rw [lookup_cons_of_ne hc] at h
          obtain ⟨t, rfl, htf⟩ := harea n e h
          refine ⟨t, rfl, ?_⟩
          have htc : t ≠
              candPath dir (_get_link_name u s) (_get_file_extension s)
                k0 := by
            intro hcc
            rw [hcc, hl] at htf
            cases htf
          rw [lookup_cons_of_ne htc]
          exact htf
      · intro f2 hf2
        rw [hf] at hf2
        cases hf2
        exact ⟨k0, lookup_cons_self,
          fun j hj => contB_mono hext (hmin j hj)⟩
      · intro ev hev
        rw [List.mem_singleton] at hev
        subst hev
        exact ⟨_, f.path, Or.inl rfl, lookup_cons_self⟩
    | some e =>
      obtain ⟨t, rfl, htf⟩ := area_cand harea hl
      have hts : t = f.path := by
        by_contra hne
        rw [contB_true_iff.mpr ⟨t, hl, hne⟩] at hk0
        cases hk0
      rw [hts] at hl htf
      have hcs : _create_symlink false st.fs f.path
          (candPath dir (_get_link_name u s) (_get_file_extension s) k0) =
          ⟨st.fs, true,
            [Event.alreadyCorrect
              (candPath dir (_get_link_name u s) (_get_file_extension s) k0)
              f.path]⟩ := by
        unfold _create_symlink
        rw [existsAt_file hsrcf]
        rw [if_neg (show ¬(true = false) by simp)]
        rw [if_neg (show ¬(false = true) by simp)]
        rw [hl]
        show (if f.path = f.path then _ else _) = _
        rw [if_pos rfl]
      refine ⟨⟨st.fs, st.count + 1,
          st.events ++ [Event.alreadyCorrect
            (candPath dir (_get_link_name u s) (_get_file_extension s) k0)
            f.path]⟩,
        by rw [hred, hcs]; rfl, harea, FsExt_refl _, ?_,
        [Event.alreadyCorrect
          (candPath dir (_get_link_name u s) (_get_file_extension s) k0)
          f.path], rfl, ?_⟩
      · intro f2 hf2
        rw [hf] at hf2
        cases hf2
        exact ⟨k0, hl, hmin⟩
      · intro ev hev
        rw [List.mem_singleton] at hev
        subst hev
        exact ⟨_, f.path, Or.inr rfl, hl⟩

/-! ### Reduction lemmas for the per-scene step -/

lemma candPath_ne (dir : Fpath) (nm ext : String) {i j : Nat} (h : i ≠ j) :
    candPath dir nm ext i ≠ candPath dir nm ext j :=
  fun hc => h (candPath_inj dir nm ext hc)

lemma create_symlink_created {fs : FS} {src c : Fpath}
    (hsrcf : FS.lookup fs src = some Entry.file)
    (hl : FS.lookup fs c = none) :
    _create_symlink false fs src c =
      ⟨(c, Entry.symlink src) :: fs, true, [Event.created c src]⟩ := by
  unfold _create_symlink
  rw [existsAt_file hsrcf]
  rw [if_neg (show ¬(true = false) by simp)]
  rw [if_neg (show ¬(false = true) by simp)]
  rw [hl, insert_eq_cons _ hl]

lemma create_symlink_already {fs : FS} {src c : Fpath}
    (hsrcf : FS.lookup fs src = some Entry.file)
    (hl : FS.lookup fs c = some (Entry.symlink src)) :
    _create_symlink false fs src c =
      ⟨fs, true, [Event.alreadyCorrect c src]⟩ := by
  unfold _create_symlink
  rw [existsAt_file hsrcf]
  rw [if_neg (show ¬(true = false) by simp)]
  rw [if_neg (show ¬(false = true) by simp)]
  rw [hl]
  show (if src = src then _ else _) = _
  rw [if_pos rfl]

lemma processTagScene_red (u : Bool) (dir : Fpath) (st : RunState)
    (s : Scene) {f : SceneFile} {rest : List SceneFile} {c : Fpath}
    (hf : s.files = f :: rest)
    (hslot : findSlot st.fs f.path dir (_get_link_name u s)
      (_get_file_extension s) (st.fs.length + 1) 0 = Except.ok c) :
    processTagScene u false dir st s = Except.ok
      ⟨(_create_symlink false st.fs f.path c).fs,
       st.count +
         (if (_create_symlink false st.fs f.path c).ok then 1 else 0),
       st.events ++ (_create_symlink false st.fs f.path c).events⟩ := by
  simp only [processTagScene, hf]
  rw [hslot]
  rfl

lemma processTagScene_created (u : Bool) (dir : Fpath) (st : RunState)
    (s : Scene) {f : SceneFile} {rest : List SceneFile} {k : Nat}
    (hf : s.files = f :: rest)
    (hsrcf : FS.lookup st.fs f.path = some Entry.file)
    (hslot : findSlot st.fs f.path dir (_get_link_name u s)
      (_get_file_extension s) (st.fs.length + 1) 0 =
      Except.ok (candPath dir (_get_link_name u s) (_get_file_extension s)
        k))
    (hl : FS.lookup st.fs (candPath dir (_get_link_name u s)
      (_get_file_extension s) k) = none) :
    processTagScene u false dir st s = Except.ok
      ⟨(candPath dir (_get_link_name u s) (_get_file_extension s) k,
          Entry.symlink f.path) :: st.fs,
       st.count + 1,
       st.events ++ [Event.created
         (candPath dir (_get_link_name u s) (_get_file_extension s) k)
         f.path]⟩ := by
  rw [processTagScene_red u dir st s hf hslot,
    create_symlink_created hsrcf hl]
  rfl

lemma processTagScene_already (u : Bool) (dir : Fpath) (st : RunState)
    (s : Scene) {f : SceneFile} {rest : List SceneFile} {k : Nat}
    (hf : s.files = f :: rest)
    (hsrcf : FS.lookup st.fs f.path = some Entry.file)
    (hslot : findSlot st.fs f.path dir (_get_link_name u s)
      (_get_file_extension s) (st.fs.length + 1) 0 =
      Except.ok (candPath dir (_get_link_name u s) (_get_file_extension s)
        k))
    (hl : FS.lookup st.fs (candPath dir (_get_link_name u s)
      (_get_file_extension s) k) = some (Entry.symlink f.path)) :
    processTagScene u false dir st s = Except.ok
      ⟨st.fs, st.count + 1,
       st.events ++ [Event.alreadyCorrect
         (candPath dir (_get_link_name u s) (_get_file_extension s) k)
         f.path]⟩ := by
  rw [processTagScene_red u dir st s hf hslot,
    create_symlink_already hsrcf hl]
  rfl

/-! ### The whole scene loop -/

lemma foldlM_run_char (u : Bool) (dir : Fpath) :
    ∀ (scenes : List Scene) (st : RunState),
      AreaOK dir st.fs →
      (∀ s ∈ scenes, ∀ f, s.files.head? = some f →
        FS.lookup st.fs f.path = some Entry.file) →
      ∃ st2,
        scenes.foldlM (processTagScene u false dir) st = Except.ok st2 ∧
        AreaOK dir st2.fs ∧ FsExt st.fs st2.fs ∧
        (∀ s ∈ scenes, Sat u dir s st2.fs) ∧
        ∃ tail, st2.events = st.events ++ tail ∧
          ∀ ev ∈ tail, ∃ l sp,
            (ev = Event.created l sp ∨ ev = Event.alreadyCorrect l sp) ∧
            FS.lookup st2.fs l = some (Entry.symlink sp) := by
  intro scenes
  induction scenes with
  | nil =>
    intro st ha _
    exact ⟨st, rfl, ha, FsExt_refl _, by simp, [], by simp, by simp⟩
  | cons s ss ih =>
    intro st ha hs
    obtain ⟨st1, h1, ha1, hext1, hsat1, tail1, hev1, htr1⟩ :=
      processTagScene_char u dir st s ha (hs s (by simp))
    have hs1 : ∀ s2 ∈ ss, ∀ f, s2.files.head? = some f →
        FS.lookup st1.fs f.path = some Entry.file :=
      fun s2 hs2 f hf => hext1 _ _ (hs s2 (by simp [hs2]) f hf)
    obtain ⟨st2, h2, ha2, hext2, hsat2, tail2, hev2, htr2⟩ := ih st1 ha1 hs1
    refine ⟨st2, ?_, ha2, FsExt_trans hext1 hext2, ?_,
      tail1 ++ tail2, ?_, ?_⟩
    · rw [List.foldlM_cons, h1]
      exact h2
    · intro s2 hs2
      rcases List.mem_cons.mp hs2 with h | h
      · subst h
        exact Sat_mono hext2 hsat1
      · exact hsat2 s2 h
    · rw [hev2, hev1, List.append_assoc]
    · intro ev hev
      rcases List.mem_append.mp hev with h | h
      · obtain ⟨l, sp, hshape, hlk⟩ := htr1 ev h
        exact ⟨l, sp, hshape, hext2 _ _ hlk⟩
      · exact htr2 ev h

lemma foldlM_run_idem (u : Bool) (dir : Fpath) :
    ∀ (scenes : List Scene) (st : RunState),
      AreaOK dir st.fs →
      (∀ s ∈ scenes, ∀ f, s.files.head? = some f →
        FS.lookup st.fs f.path = some Entry.file) →
      (∀ s ∈ scenes, Sat u dir s st.fs) →
      ∃ st2,
        scenes.foldlM (processTagScene u false dir) st = Except.ok st2 ∧
        st2.fs = st.fs ∧
        ∃ tail, st2.events = st.events ++ tail ∧
          ∀ ev ∈ tail, ∃ l sp, ev = Event.alreadyCorrect l sp := by
  intro scenes
  induction scenes with
  | nil =>
    intro st _ _ _
    exact ⟨st, rfl, rfl, [], by simp, by simp⟩
  | cons s ss ih =>
    intro st ha hs hsat
    cases hf : s.files with
    | nil =>
      have hstep : processTagScene u false dir st s = Except.ok st := by
        simp [processTagScene, hf]
      obtain ⟨st2, h2, hfs2, tail2, hev2, hsh2⟩ := ih st ha
        (fun s2 h => hs s2 (by simp [h])) (fun s2 h => hsat s2 (by simp [h]))
      refine ⟨st2, ?_, hfs2, tail2, hev2, hsh2⟩
      rw [List.foldlM_cons, hstep]
      exact h2
    | cons f rest =>
      have hsrcf := hs s (by simp) f (head?_eq_of_cons hf)
      obtain ⟨k, hk, hmin⟩ := hsat s (by simp) f (head?_eq_of_cons hf)
      have hkc : contB st.fs f.path (candPath dir (_get_link_name u s)
          (_get_file_extension s) k) = false := contB_false_of_self hk
      have hkb : k ≤ st.fs.length := by
        refine lookup_cands_bound st.fs dir (_get_link_name u s)
          (_get_file_extension s) k ?_
        intro j hj
        obtain ⟨t, hl, _⟩ := contB_true_iff.mp (hmin j hj)
        rw [hl]
        intro hc
        cases hc
      have hslot := findSlot_reaches ha hkc hmin (st.fs.length + 1) 0
        (by omega) (by omega)
      have hstep := processTagScene_already u dir st s hf hsrcf hslot hk
      obtain ⟨st2, h2, hfs2, tail2, hev2, hsh2⟩ := ih
        ⟨st.fs, st.count + 1, st.events ++ [Event.alreadyCorrect
          (candPath dir (_get_link_name u s) (_get_file_extension s) k)
          f.path]⟩
        ha (fun s2 h => hs s2 (by simp [h]))
        (fun s2 h => hsat s2 (by simp [h]))
      refine ⟨st2, ?_, hfs2, [Event.alreadyCorrect
          (candPath dir (_get_link_name u s) (_get_file_extension s) k)
          f.path] ++ tail2, ?_, ?_⟩
      · rw [List.foldlM_cons, hstep]
        exact h2
      · rw [hev2]
        simp
      · intro ev hev
        rcases List.mem_append.mp hev with h | h
        · rw [List.mem_singleton] at h
          exact ⟨_, _, h⟩
        · exact hsh2 ev h

/-! ### Directory creation -/

lemma mkdirStep_none {acc : FS} {pre : Fpath}
    (h : FS.lookup acc pre = none) :
    mkdirStep acc pre = Except.ok ((pre, Entry.dir) :: acc) := by
  unfold mkdirStep
  rw [h, insert_eq_cons _ h]

lemma mkdirStep_dir {acc : FS} {pre : Fpath}
    (h : FS.lookup acc pre = some Entry.dir) :
    mkdirStep acc pre = Except.ok acc := by
  unfold mkdirStep
  rw [h]

lemma mkdirSeq_char :
    ∀ (ps : List Fpath) (fs : FS),
      (∀ pre ∈ ps, FS.lookup fs pre = none ∨
        FS.lookup fs pre = some Entry.dir) →
      ∃ fs2, ps.foldlM mkdirStep fs = Except.ok fs2 ∧
        FsExt fs fs2 ∧
        (∀ pre ∈ ps, FS.lookup fs2 pre = some Entry.dir) ∧
        (∀ p, FS.lookup fs2 p = FS.lookup fs p ∨
          (p ∈ ps ∧ FS.lookup fs2 p = some Entry.dir)) := by
  intro ps
  induction ps with
  | nil =>
    intro fs _
    exact ⟨fs, rfl, FsExt_refl _, by simp, fun p => Or.inl rfl⟩
  | cons pre ps ih =>
    intro fs hps
    rcases hps pre (by simp) with hnone | hdir
    · have hps2 : ∀ q ∈ ps, FS.lookup ((pre, Entry.dir) :: fs) q = none ∨
          FS.lookup ((pre, Entry.dir) :: fs) q = some Entry.dir := by
        intro q hq
        by_cases hqp : q = pre
        · subst hqp
          rw [lookup_cons_self]
          right
          rfl
        · rw [lookup_cons_of_ne hqp]
          exact hps q (by simp [hq])
      obtain ⟨fs2, h2, hext2, hdirs2, hstable2⟩ :=
        ih ((pre, Entry.dir) :: fs) hps2
      refine ⟨fs2, ?_, FsExt_trans (FsExt_cons_fresh _ hnone) hext2, ?_, ?_⟩
      · rw [List.foldlM_cons, mkdirStep_none hnone]
        exact h2
      · intro q hq
        rcases List.mem_cons.mp hq with h | h
        · subst h
          exact hext2 _ _ lookup_cons_self
        · exact hdirs2 q h
      · intro p
        rcases hstable2 p with h | h
        · by_cases hpp : p = pre
          · subst hpp
            right
            exact ⟨by simp, by rw [h, lookup_cons_self]⟩
          · left
            rw [h, lookup_cons_of_ne hpp]
        · right
          exact ⟨by simp [h.1], h.2⟩
    · have hps2 : ∀ q ∈ ps, FS.lookup fs q = none ∨
          FS.lookup fs q = some Entry.dir :=
        fun q hq => hps q (by simp [hq])
      obtain ⟨fs2, h2, hext2, hdirs2, hstable2⟩ := ih fs hps2
      refine ⟨fs2, ?_, hext2, ?_, ?_⟩
      · rw [List.foldlM_cons, mkdirStep_dir hdir]
        exact h2
      · intro q hq
        rcases List.mem_cons.mp hq with h | h
        · subst h
          exact hext2 _ _ hdir
        · exact hdirs2 q h
      · intro p
        rcases hstable2 p with h | h
        · exact Or.inl h
        · exact Or.inr ⟨by simp [h.1], h.2⟩

lemma mkdirParents_char (fs : FS) (dir : Fpath) (h : DirPrefixOK fs dir) :
    ∃ fs2, FS.mkdirParents fs dir = Except.ok fs2 ∧ FsExt fs fs2 ∧
      DirsMade fs2 dir ∧
      (∀ p, FS.lookup fs2 p = FS.lookup fs p ∨
        (p ∈ prefixesOf dir ∧ FS.lookup fs2 p = some Entry.dir)) :=
  mkdirSeq_char (prefixesOf dir) fs h

lemma mkdirSeq_noop :
    ∀ (ps : List Fpath) (fs : FS),
      (∀ pre ∈ ps, FS.lookup fs pre = some Entry.dir) →
      ps.foldlM mkdirStep fs = Except.ok fs := by
  intro ps
  induction ps with
  | nil => intro fs _; rfl
  | cons pre ps ih =>
    intro fs hps
    rw [List.foldlM_cons, mkdirStep_dir (hps pre (by simp))]
    exact ih fs (fun q hq => hps q (by simp [hq]))

lemma mkdirParents_noop (fs : FS) (dir : Fpath) (h : DirsMade fs dir) :
    FS.mkdirParents fs dir = Except.ok fs :=
  mkdirSeq_noop (prefixesOf dir) fs h

lemma area_not_pre (dir : Fpath) (n : String) :
    dir ++ [n] ∉ prefixesOf dir := by
  intro hmem
  unfold prefixesOf at hmem
  rw [List.mem_map] at hmem
  obtain ⟨i, hi, heq⟩ := hmem
  rw [List.mem_range] at hi
  have hlen := congrArg List.length heq
  rw [List.length_take, List.length_append] at hlen
  have h2 : min (i + 1) dir.length ≤ dir.length := Nat.min_le_right _ _
  simp at hlen
  omega

lemma AreaOK_after_mkdir {fs fs2 : FS} {dir : Fpath}
    (harea : AreaOK dir fs) (hext : FsExt fs fs2)
    (hstable : ∀ p, FS.lookup fs2 p = FS.lookup fs p ∨
      (p ∈ prefixesOf dir ∧ FS.lookup fs2 p = some Entry.dir)) :
    AreaOK dir fs2 := by
  intro n e h
  rcases hstable (dir ++ [n]) with hs | hs
  · rw [hs] at h
    obtain ⟨t, rfl, htf⟩ := harea n e h
    exact ⟨t, rfl, hext _ _ htf⟩
  · exact absurd hs.1 (area_not_pre dir n)

/-! ### The assembled item call -/

lemma placeLinks_ok (sub : String) (m : Manager) (fs0 : FS)
    (itemName : String) (scenes : List Scene) (hdry : m.dryRun = false)
    (hpre : DirPrefixOK fs0 (m.farm ++ [sub, _sanitize_name itemName]))
    (harea : AreaOK (m.farm ++ [sub, _sanitize_name itemName]) fs0)
    (hsrcs : SrcsOK fs0 scenes) :
    ∃ st, placeLinks sub m fs0 itemName scenes = Except.ok st ∧
      AreaOK (m.farm ++ [sub, _sanitize_name itemName]) st.fs ∧
      FsExt fs0 st.fs ∧
      DirsMade st.fs (m.farm ++ [sub, _sanitize_name itemName]) ∧
      (∀ s ∈ scenes,
        Sat m.useTitle (m.farm ++ [sub, _sanitize_name itemName]) s st.fs) ∧
      SrcsOK st.fs scenes ∧
      ∀ ev ∈ st.events, ∃ l sp,
        (ev = Event.created l sp ∨ ev = Event.alreadyCorrect l sp) ∧
        FS.lookup st.fs l = some (Entry.symlink sp) := by
  obtain ⟨fs1, hmk, hext1, hdirs1, hstable⟩ :=
    mkdirParents_char fs0 (m.farm ++ [sub, _sanitize_name itemName]) hpre
  have harea1 : AreaOK (m.farm ++ [sub, _sanitize_name itemName]) fs1 :=
    AreaOK_after_mkdir harea hext1 hstable
  have hsrcs1 : SrcsOK fs1 scenes :=
    fun s hsc f hf => hext1 _ _ (hsrcs s hsc f hf)
  obtain ⟨st, hrun, harea2, hext2, hsat, tail, hev, htr⟩ :=
    foldlM_run_char m.useTitle (m.farm ++ [sub, _sanitize_name itemName])
      scenes ⟨fs1, 0, []⟩ harea1 hsrcs1
  refine ⟨st, ?_, harea2, FsExt_trans hext1 hext2, ?_, hsat, ?_, ?_⟩
  · unfold placeLinks
    rw [hdry]
    dsimp only
    rw [show FS.mkdirParents fs0 (m.farm ++ [sub, _sanitize_name itemName])
      = Except.ok fs1 from hmk]
    exact hrun
  · intro pre hp
    exact hext2 _ _ (hdirs1 pre hp)
  · exact fun s hsc f hf => hext2 _ _ (hsrcs1 s hsc f hf)
  · intro ev hevm
    apply htr
    rw [hev] at hevm
    simpa using hevm

lemma placeLinks_idem (sub : String) (m : Manager) (fs0 : FS)
    (itemName : String) (scenes : List Scene) (hdry : m.dryRun = false)
    (hpre : DirPrefixOK fs0 (m.farm ++ [sub, _sanitize_name itemName]))
    (harea : AreaOK (m.farm ++ [sub, _sanitize_name itemName]) fs0)
    (hsrcs : SrcsOK fs0 scenes) :
    ∃ st1 st2, placeLinks sub m fs0 itemName scenes = Except.ok st1 ∧
      placeLinks sub m st1.fs itemName scenes = Except.ok st2 ∧
      st2.fs = st1.fs ∧
      ∀ ev ∈ st2.events, ∃ l sp, ev = Event.alreadyCorrect l sp := by
  obtain ⟨st1, hok1, harea1, hext1, hdirs1, hsat1, hsrcs1, _⟩ :=
    placeLinks_ok sub m fs0 itemName scenes hdry hpre harea hsrcs
  obtain ⟨st2, hrun2, hfs2, tail2, hev2, hsh2⟩ :=
    foldlM_run_idem m.useTitle (m.farm ++ [sub, _sanitize_name itemName])
      scenes ⟨st1.fs, 0, []⟩ harea1 hsrcs1 hsat1
  refine ⟨st1, st2, hok1, ?_, hfs2, ?_⟩
  · unfold placeLinks
    rw [hdry]
    dsimp only
    rw [show FS.mkdirParents st1.fs
        (m.farm ++ [sub, _sanitize_name itemName]) = Except.ok st1.fs from
      mkdirParents_noop _ _ hdirs1]
    exact hrun2
  · intro ev hevm
    rw [hev2] at hevm
    simp only [List.nil_append] at hevm
    exact hsh2 ev hevm

lemma AreaOK_of_empty {dir : Fpath} {fs : FS}
    (h : ∀ n, FS.lookup fs (dir ++ [n]) = none) : AreaOK dir fs := by
  intro n e hl
  rw [h n] at hl
  cases hl

lemma placeLinks_no_collision (sub : String) (m : Manager) (fs0 : FS)
    (itemName : String) (scenes : List Scene) (hdry : m.dryRun = false)
    (hpre : DirPrefixOK fs0 (m.farm ++ [sub, _sanitize_name itemName]))
    (harea : AreaOK (m.farm ++ [sub, _sanitize_name itemName]) fs0)
    (hsrcs : SrcsOK fs0 scenes) :
    ∃ st, placeLinks sub m fs0 itemName scenes = Except.ok st ∧
      (∀ l sp, (Event.created l sp ∈ st.events ∨
          Event.alreadyCorrect l sp ∈ st.events) →
        FS.lookup st.fs l = some (Entry.symlink sp)) ∧
      (∀ l1 sp1 l2 sp2,
        (Event.created l1 sp1 ∈ st.events ∨
          Event.alreadyCorrect l1 sp1 ∈ st.events) →
        (Event.created l2 sp2 ∈ st.events ∨
          Event.alreadyCorrect l2 sp2 ∈ st.events) →
        sp1 ≠ sp2 → l1 ≠ l2) ∧
      (∀ l, Event.overwriting l ∉ st.events) := by
  obtain ⟨st, hok, _, _, _, _, _, htr⟩ :=
    placeLinks_ok sub m fs0 itemName scenes hdry hpre harea hsrcs
  have truth : ∀ l sp, (Event.created l sp ∈ st.events ∨
      Event.alreadyCorrect l sp ∈ st.events) →
      FS.lookup st.fs l = some (Entry.symlink sp) := by
    intro l sp h
    rcases h with h | h
    · obtain ⟨l2, sp2, hsh, hlk⟩ := htr _ h
      rcases hsh with he | he
      · injection he with e1 e2
        rw [← e1, ← e2] at hlk
        exact hlk
      · exact Event.noConfusion he
    · obtain ⟨l2, sp2, hsh, hlk⟩ := htr _ h
      rcases hsh with he | he
      · exact Event.noConfusion he
      · injection he with e1 e2
        rw [← e1, ← e2] at hlk
        exact hlk
  refine ⟨st, hok, truth, ?_, ?_⟩
  · intro l1 sp1 l2 sp2 h1 h2 hne heq
    subst heq
    have t1 := truth l1 sp1 h1
    have t2 := truth l1 sp2 h2
    rw [t1] at t2
    injection t2 with t3
    injection t3 with t4
    exact hne t4
  · intro l h
    obtain ⟨l2, sp2, hsh, _⟩ := htr _ h
    rcases hsh with he | he
    · exact Event.noConfusion he
    · exact Event.noConfusion he

/-- C3: running `create_tag_links` (or `create_performer_links`) a second
time with the identical item name and scene list, from the state the first
run produced, changes nothing: the second run returns the same filesystem
(zero new entries, so no additional numeric-suffix names) and every
outcome it reports is an already-correct link found pointing at its
source.  Hypotheses: non-dry-run; every scene's first source is a regular
file; the item directory's prefixes are absent or directories; entries
already under the item directory, if any, are symlinks to existing files. -/
theorem create_links_idempotent (m : Manager) (fs0 : FS)
    (itemName : String) (scenes : List Scene) (hdry : m.dryRun = false)
    (hsrcs : SrcsOK fs0 scenes) :
    (DirPrefixOK fs0 (m.farm ++ ["tags", _sanitize_name itemName]) →
      AreaOK (m.farm ++ ["tags", _sanitize_name itemName]) fs0 →
      ∃ st1 st2, create_tag_links m fs0 itemName scenes = Except.ok st1 ∧
        create_tag_links m st1.fs itemName scenes = Except.ok st2 ∧
        st2.fs = st1.fs ∧
        ∀ ev ∈ st2.events, ∃ l sp, ev = Event.alreadyCorrect l sp) ∧
    (DirPrefixOK fs0 (m.farm ++ ["performers", _sanitize_name itemName]) →
      AreaOK (m.farm ++ ["performers", _sanitize_name itemName]) fs0 →
      ∃ st1 st2,
        create_performer_links m fs0 itemName scenes = Except.ok st1 ∧
        create_performer_links m st1.fs itemName scenes = Except.ok st2 ∧
        st2.fs = st1.fs ∧
        ∀ ev ∈ st2.events, ∃ l sp, ev = Event.alreadyCorrect l sp) := by
  constructor
  · intro hpre harea
    obtain ⟨st1, st2, h1, h2, h3, h4⟩ :=
      placeLinks_idem "tags" m fs0 itemName scenes hdry hpre harea hsrcs
    exact ⟨st1, st2, by rw [create_tag_links_eq_placeLinks]; exact h1,
      by rw [create_tag_links_eq_placeLinks]; exact h2, h3, h4⟩
  · intro hpre harea
    obtain ⟨st1, st2, h1, h2, h3, h4⟩ :=
      placeLinks_idem "performers" m fs0 itemName scenes hdry hpre harea
        hsrcs
    exact ⟨st1, st2,
      by rw [create_performer_links_eq_placeLinks]; exact h1,
      by rw [create_performer_links_eq_placeLinks]; exact h2, h3, h4⟩

/-- C3 witness: the idempotence theorem applied to two colliding scenes
over a concrete store. -/
theorem create_links_idempotent_witness :
    sampleM.dryRun = false ∧
    SrcsOK sampleFS [sceneA, sceneB] ∧
    DirPrefixOK sampleFS (sampleM.farm ++ ["tags", _sanitize_name "t"]) ∧
    (∃ st1 st2,
      create_tag_links sampleM sampleFS "t" [sceneA, sceneB] =
        Except.ok st1 ∧
      create_tag_links sampleM st1.fs "t" [sceneA, sceneB] =
        Except.ok st2 ∧
      st2.fs = st1.fs ∧
      ∀ ev ∈ st2.events, ∃ l sp, ev = Event.alreadyCorrect l sp) := by
  have hsrcs : SrcsOK sampleFS [sceneA, sceneB] := by
    intro s hs f hf
    fin_cases hs
    · injection hf with h2
      subst h2
      decide
    · injection hf with h2
      subst h2
      decide
  have harea : AreaOK (sampleM.farm ++ ["tags", _sanitize_name "t"])
      sampleFS := by
    apply AreaOK_of_empty
    intro n
    rw [show sampleM.farm ++ ["tags", _sanitize_name "t"] =
      ["farm", "tags", "t"] from by decide]
    simp [sampleFS, FS.lookup]
  exact ⟨rfl, hsrcs, by decide,
    (create_links_idempotent sampleM sampleFS "t" [sceneA, sceneB] rfl
      hsrcs).1 (by decide) harea⟩

/-- C4: within one non-dry-run `create_tag_links` (or
`create_performer_links`) call, no two placements for different source
paths resolve to the same filesystem path, every reported placement
(created or already-correct) really points at its source in the final
store, and a candidate that already points at the scene's own source is
treated as already satisfied: no existing link is ever overwritten under
these hypotheses. -/
theorem placements_no_collision (m : Manager) (fs0 : FS)
    (itemName : String) (scenes : List Scene) (hdry : m.dryRun = false)
    (hsrcs : SrcsOK fs0 scenes) :
    (DirPrefixOK fs0 (m.farm ++ ["tags", _sanitize_name itemName]) →
      AreaOK (m.farm ++ ["tags", _sanitize_name itemName]) fs0 →
      ∃ st, create_tag_links m fs0 itemName scenes = Except.ok st ∧
        (∀ l sp, (Event.created l sp ∈ st.events ∨
            Event.alreadyCorrect l sp ∈ st.events) →
          FS.lookup st.fs l = some (Entry.symlink sp)) ∧
        (∀ l1 sp1 l2 sp2,
          (Event.created l1 sp1 ∈ st.events ∨
            Event.alreadyCorrect l1 sp1 ∈ st.events) →
          (Event.created l2 sp2 ∈ st.events ∨
            Event.alreadyCorrect l2 sp2 ∈ st.events) →
          sp1 ≠ sp2 → l1 ≠ l2) ∧
        (∀ l, Event.overwriting l ∉ st.events)) ∧
    (DirPrefixOK fs0 (m.farm ++ ["performers", _sanitize_name itemName]) →
      AreaOK (m.farm ++ ["performers", _sanitize_name itemName]) fs0 →
      ∃ st, create_performer_links m fs0 itemName scenes = Except.ok st ∧
        (∀ l sp, (Event.created l sp ∈ st.events ∨
            Event.alreadyCorrect l sp ∈ st.events) →
          FS.lookup st.fs l = some (Entry.symlink sp)) ∧
        (∀ l1 sp1 l2 sp2,
          (Event.created l1 sp1 ∈ st.events ∨
            Event.alreadyCorrect l1 sp1 ∈ st.events) →
          (Event.created l2 sp2 ∈ st.events ∨
            Event.alreadyCorrect l2 sp2 ∈ st.events) →
          sp1 ≠ sp2 → l1 ≠ l2) ∧
        (∀ l, Event.overwriting l ∉ st.events)) := by
  constructor
  · intro hpre harea
    obtain ⟨st, h1, h2, h3, h4⟩ := placeLinks_no_collision "tags" m fs0
      itemName scenes hdry hpre harea hsrcs
    exact ⟨st, by rw [create_tag_links_eq_placeLinks]; exact h1,
      h2, h3, h4⟩
  · intro hpre harea
    obtain ⟨st, h1, h2, h3, h4⟩ := placeLinks_no_collision "performers" m
      fs0 itemName scenes hdry hpre harea hsrcs
    exact ⟨st, by rw [create_performer_links_eq_placeLinks]; exact h1,
      h2, h3, h4⟩

/-- C4 witness: the placement invariant applied to two colliding scenes
over a concrete store. -/
theorem placements_no_collision_witness :
    sampleM.dryRun = false ∧
    SrcsOK sampleFS [sceneA, sceneB] ∧
    DirPrefixOK sampleFS (sampleM.farm ++ ["tags", _sanitize_name "t"]) ∧
    (∃ st, create_tag_links sampleM sampleFS "t" [sceneA, sceneB] =
        Except.ok st ∧
      (∀ l sp, (Event.created l sp ∈ st.events ∨
          Event.alreadyCorrect l sp ∈ st.events) →
        FS.lookup st.fs l = some (Entry.symlink sp)) ∧
      (∀ l1 sp1 l2 sp2,
        (Event.created l1 sp1 ∈ st.events ∨
          Event.alreadyCorrect l1 sp1 ∈ st.events) →
        (Event.created l2 sp2 ∈ st.events ∨
          Event.alreadyCorrect l2 sp2 ∈ st.events) →
        sp1 ≠ sp2 → l1 ≠ l2) ∧
      (∀ l, Event.overwriting l ∉ st.events)) := by
  have hsrcs : SrcsOK sampleFS [sceneA, sceneB] := by
    intro s hs f hf
    fin_cases hs
    · injection hf with h2
      subst h2
      decide
    · injection hf with h2
      subst h2
      decide
  have harea : AreaOK (sampleM.farm ++ ["tags", _sanitize_name "t"])
      sampleFS := by
    apply AreaOK_of_empty
    intro n
    rw [show sampleM.farm ++ ["tags", _sanitize_name "t"] =
      ["farm", "tags", "t"] from by decide]
    simp [sampleFS, FS.lookup]
  exact ⟨rfl, hsrcs, by decide,
    (placements_no_collision sampleM sampleFS "t" [sceneA, sceneB] rfl
      hsrcs).1 (by decide) harea⟩

/-! ### The two-scene collision scenario (C2) -/

lemma except_bind_ok {α β : Type} (a : α) (g : α → Except EngErr β) :
    (Except.ok a >>= g) = g a := rfl

lemma placeLinks_collision (sub : String) (m : Manager) (fs0 : FS)
    (itemName : String) (dir : Fpath)
    (hdir : dir = m.farm ++ [sub, _sanitize_name itemName])
    (s1 s2 : Scene) (f1 f2 : SceneFile) (r1 r2 : List SceneFile)
    (hdry : m.dryRun = false)
    (hf1 : s1.files = f1 :: r1) (hf2 : s2.files = f2 :: r2)
    (hsne : f1.path ≠ f2.path)
    (hname : _get_link_name m.useTitle s2 = _get_link_name m.useTitle s1)
    (hext : _get_file_extension s2 = _get_file_extension s1)
    (hpre : DirPrefixOK fs0 dir)
    (harea : ∀ n, FS.lookup fs0 (dir ++ [n]) = none)
    (hsrc1 : FS.lookup fs0 f1.path = some Entry.file)
    (hsrc2 : FS.lookup fs0 f2.path = some Entry.file) :
    ∃ st, placeLinks sub m fs0 itemName [s1, s2] = Except.ok st ∧
      st.events = [
        Event.created (candPath dir (_get_link_name m.useTitle s1)
          (_get_file_extension s1) 0) f1.path,
        Event.created (candPath dir (_get_link_name m.useTitle s1)
          (_get_file_extension s1) 1) f2.path] ∧
      FS.lookup st.fs (candPath dir (_get_link_name m.useTitle s1)
        (_get_file_extension s1) 0) = some (Entry.symlink f1.path) ∧
      FS.lookup st.fs (candPath dir (_get_link_name m.useTitle s1)
        (_get_file_extension s1) 1) = some (Entry.symlink f2.path) ∧
      st.count = 2 := by
  obtain ⟨fs1, hmk, hext1, hdirs1, hstable⟩ := mkdirParents_char fs0 dir hpre
  have harea1 : ∀ n, FS.lookup fs1 (dir ++ [n]) = none := by
    intro n
    rcases hstable (dir ++ [n]) with h | h
    · rw [h]
      exact harea n
    · exact absurd h.1 (area_not_pre dir n)
  have hA1 : AreaOK dir fs1 := AreaOK_of_empty harea1
  have hsrc1a : FS.lookup fs1 f1.path = some Entry.file :=
    hext1 _ _ hsrc1
  have hsrc2a : FS.lookup fs1 f2.path = some Entry.file :=
    hext1 _ _ hsrc2
  -- scene 1 lands on index 0
  have hl10 : FS.lookup fs1 (candPath dir (_get_link_name m.useTitle s1)
      (_get_file_extension s1) 0) = none := harea1 _
  have hslot1 : findSlot fs1 f1.path dir (_get_link_name m.useTitle s1)
      (_get_file_extension s1) (fs1.length + 1) 0 =
      Except.ok (candPath dir (_get_link_name m.useTitle s1)
        (_get_file_extension s1) 0) :=
    findSlot_reaches hA1 (contB_false_of_none hl10)
      (fun j hj => absurd hj (by omega)) (fs1.length + 1) 0 (by omega)
      (by omega)
  have hstep1 := processTagScene_created m.useTitle dir ⟨fs1, 0, []⟩ s1
    hf1 hsrc1a hslot1 hl10
  -- the store after scene 1
  have hne10 : f1.path ≠ candPath dir (_get_link_name m.useTitle s1)
      (_get_file_extension s1) 0 := by
    intro hcc
    rw [hcc, hl10] at hsrc1a
    cases hsrc1a
  have hne20 : f2.path ≠ candPath dir (_get_link_name m.useTitle s1)
      (_get_file_extension s1) 0 := by
    intro hcc
    rw [hcc, hl10] at hsrc2a
    cases hsrc2a
  have hA2 : AreaOK dir
      ((candPath dir (_get_link_name m.useTitle s1)
        (_get_file_extension s1) 0, Entry.symlink f1.path) :: fs1) := by
    intro n e h
    by_cases hc : dir ++ [n] = candPath dir (_get_link_name m.useTitle s1)
        (_get_file_extension s1) 0
    · rw [hc, lookup_cons_self] at h
      cases h
      exact ⟨f1.path, rfl, by rw [lookup_cons_of_ne hne10]; exact hsrc1a⟩
    · rw [lookup_cons_of_ne hc, harea1 n] at h
      cases h
  have hl21 : FS.lookup
      ((candPath dir (_get_link_name m.useTitle s1)
        (_get_file_extension s1) 0, Entry.symlink f1.path) :: fs1)
      (candPath dir (_get_link_name m.useTitle s1)
        (_get_file_extension s1) 1) = none := by
    rw [lookup_cons_of_ne (candPath_ne dir _ _ (by omega))]
    exact harea1 _
  have hcont0 : contB
      ((candPath dir (_get_link_name m.useTitle s1)
        (_get_file_extension s1) 0, Entry.symlink f1.path) :: fs1)
      f2.path
      (candPath dir (_get_link_name m.useTitle s1)
        (_get_file_extension s1) 0) = true :=
    contB_true_iff.mpr ⟨f1.path, lookup_cons_self, hsne⟩
  have hslot2a : findSlot
      ((candPath dir (_get_link_name m.useTitle s1)
        (_get_file_extension s1) 0, Entry.symlink f1.path) :: fs1)
      f2.path dir (_get_link_name m.useTitle s1) (_get_file_extension s1)
      (((candPath dir (_get_link_name m.useTitle s1)
        (_get_file_extension s1) 0, Entry.symlink f1.path) :: fs1).length
        + 1) 0 =
      Except.ok (candPath dir (_get_link_name m.useTitle s1)
        (_get_file_extension s1) 1) := by
    refine findSlot_reaches hA2 (contB_false_of_none hl21) ?_ _ 0 (by omega)
      ?_
    · intro j hj
      have hj0 : j = 0 := by omega
      rw [hj0]
      exact hcont0
    · rw [List.length_cons]
      omega
  have hslot2 : findSlot
      ((candPath dir (_get_link_name m.useTitle s1)
        (_get_file_extension s1) 0, Entry.symlink f1.path) :: fs1)
      f2.path dir (_get_link_name m.useTitle s2) (_get_file_extension s2)
      (((candPath dir (_get_link_name m.useTitle s1)
        (_get_file_extension s1) 0, Entry.symlink f1.path) :: fs1).length
        + 1) 0 =
      Except.ok (candPath dir (_get_link_name m.useTitle s2)
        (_get_file_extension s2) 1) := by
    rw [hname, hext]
    exact hslot2a
  have hl21b : FS.lookup
      ((candPath dir (_get_link_name m.useTitle s1)
        (_get_file_extension s1) 0, Entry.symlink f1.path) :: fs1)
      (candPath dir (_get_link_name m.useTitle s2)
        (_get_file_extension s2) 1) = none := by
    rw [hname, hext]
    exact hl21
  have hsrc2b : FS.lookup
      ((candPath dir (_get_link_name m.useTitle s1)
        (_get_file_extension s1) 0, Entry.symlink f1.path) :: fs1)
      f2.path = some Entry.file := by
    rw [lookup_cons_of_ne hne20]
    exact hsrc2a
  have hstep2 := processTagScene_created m.useTitle dir
    ⟨(candPath dir (_get_link_name m.useTitle s1)
      (_get_file_extension s1) 0, Entry.symlink f1.path) :: fs1,
     0 + 1,
     [] ++ [Event.created (candPath dir (_get_link_name m.useTitle s1)
       (_get_file_extension s1) 0) f1.path]⟩ s2 hf2 hsrc2b hslot2 hl21b
  refine ⟨⟨(candPath dir (_get_link_name m.useTitle s2)
      (_get_file_extension s2) 1, Entry.symlink f2.path) ::
      (candPath dir (_get_link_name m.useTitle s1)
        (_get_file_extension s1) 0, Entry.symlink f1.path) :: fs1,
    0 + 1 + 1,
    ([] ++ [Event.created (candPath dir (_get_link_name m.useTitle s1)
      (_get_file_extension s1) 0) f1.path]) ++
      [Event.created (candPath dir (_get_link_name m.useTitle s2)
        (_get_file_extension s2) 1) f2.path]⟩, ?_, ?_, ?_, ?_, ?_⟩
  · unfold placeLinks
    rw [hdry]
    dsimp only
    rw [← hdir]
    rw [show FS.mkdirParents fs0 dir = Except.ok fs1 from hmk]
    show List.foldlM (processTagScene m.useTitle false dir)
      (⟨fs1, 0, []⟩ : RunState) [s1, s2] = _
    rw [List.foldlM_cons, hstep1, except_bind_ok, List.foldlM_cons, hstep2,
      except_bind_ok]
    rfl
  · show _ = _
    rw [hname, hext]
    rfl
  · show FS.lookup _ _ = _
    rw [hname, hext]
    rw [lookup_cons_of_ne (candPath_ne dir _ _ (by omega))]
    exact lookup_cons_self
  · show FS.lookup _ _ = _
    rw [hname, hext]
    exact lookup_cons_self
  · rfl

lemma placeLinks_presatisfied (sub : String) (m : Manager) (fs0 : FS)
    (itemName : String) (dir : Fpath)
    (hdir : dir = m.farm ++ [sub, _sanitize_name itemName])
    (s1 s2 : Scene) (f1 f2 : SceneFile) (r1 r2 : List SceneFile)
    (hdry : m.dryRun = false)
    (hf1 : s1.files = f1 :: r1) (hf2 : s2.files = f2 :: r2)
    (hsne : f1.path ≠ f2.path)
    (hname : _get_link_name m.useTitle s2 = _get_link_name m.useTitle s1)
    (hext : _get_file_extension s2 = _get_file_extension s1)
    (hpre : DirPrefixOK fs0 dir)
    (harea : ∀ n, FS.lookup fs0 (dir ++ [n]) = none)
    (hsrc1 : FS.lookup fs0 f1.path = some Entry.file)
    (hsrc2 : FS.lookup fs0 f2.path = some Entry.file) :
    ∃ st, placeLinks sub m
        ((candPath dir (_get_link_name m.useTitle s1)
          (_get_file_extension s1) 0, Entry.symlink f1.path) :: fs0)
        itemName [s1, s2] = Except.ok st ∧
      st.events = [
        Event.alreadyCorrect (candPath dir (_get_link_name m.useTitle s1)
          (_get_file_extension s1) 0) f1.path,
        Event.created (candPath dir (_get_link_name m.useTitle s1)
          (_get_file_extension s1) 1) f2.path] ∧
      FS.lookup st.fs (candPath dir (_get_link_name m.useTitle s1)
        (_get_file_extension s1) 1) = some (Entry.symlink f2.path) ∧
      st.count = 2 := by
  have hc0none : FS.lookup fs0 (candPath dir (_get_link_name m.useTitle s1)
      (_get_file_extension s1) 0) = none := harea _
  have hne10 : f1.path ≠ candPath dir (_get_link_name m.useTitle s1)
      (_get_file_extension s1) 0 := by
    intro hcc
    rw [hcc, hc0none] at hsrc1
    cases hsrc1
  have hne20 : f2.path ≠ candPath dir (_get_link_name m.useTitle s1)
      (_get_file_extension s1) 0 := by
    intro hcc
    rw [hcc, hc0none] at hsrc2
    cases hsrc2
  have hpre2 : DirPrefixOK
      ((candPath dir (_get_link_name m.useTitle s1)
        (_get_file_extension s1) 0, Entry.symlink f1.path) :: fs0) dir := by
    intro pre hp
    have hpc : pre ≠ candPath dir (_get_link_name m.useTitle s1)
        (_get_file_extension s1) 0 := by
      intro hcc
      rw [hcc] at hp
      exact area_not_pre dir _ hp
    rw [lookup_cons_of_ne hpc]
    exact hpre pre hp
  obtain ⟨fs1, hmk, hext1, hdirs1, hstable⟩ := mkdirParents_char
    ((candPath dir (_get_link_name m.useTitle s1)
      (_get_file_extension s1) 0, Entry.symlink f1.path) :: fs0) dir hpre2
  have ha0 : FS.lookup fs1 (candPath dir (_get_link_name m.useTitle s1)
      (_get_file_extension s1) 0) = some (Entry.symlink f1.path) :=
    hext1 _ _ lookup_cons_self
  have harea1 : ∀ n, dir ++ [n] ≠ candPath dir
      (_get_link_name m.useTitle s1) (_get_file_extension s1) 0 →
      FS.lookup fs1 (dir ++ [n]) = none := by
    intro n hn
    rcases hstable (dir ++ [n]) with h | h
    · rw [h, lookup_cons_of_ne hn]
      exact harea n
    · exact absurd h.1 (area_not_pre dir n)
  have hsrc1a : FS.lookup fs1 f1.path = some Entry.file :=
    hext1 _ _ (by rw [lookup_cons_of_ne hne10]; exact hsrc1)
  have hsrc2a : FS.lookup fs1 f2.path = some Entry.file :=
    hext1 _ _ (by rw [lookup_cons_of_ne hne20]; exact hsrc2)
  have hA1 : AreaOK dir fs1 := by
    intro n e h
    by_cases hc : dir ++ [n] = candPath dir (_get_link_name m.useTitle s1)
        (_get_file_extension s1) 0
    · rw [hc, ha0] at h
      cases h
      exact ⟨f1.path, rfl, hsrc1a⟩
    · rw [harea1 n hc] at h
      cases h
  have hslot1 : findSlot fs1 f1.path dir (_get_link_name m.useTitle s1)
      (_get_file_extension s1) (fs1.length + 1) 0 =
      Except.ok (candPath dir (_get_link_name m.useTitle s1)
        (_get_file_extension s1) 0) :=
    findSlot_reaches hA1 (contB_false_of_self ha0)
      (fun j hj => absurd hj (by omega)) (fs1.length + 1) 0 (by omega)
      (by omega)
  have hstep1 := processTagScene_already m.useTitle dir ⟨fs1, 0, []⟩ s1
    hf1 hsrc1a hslot1 ha0
  have hl1 : FS.lookup fs1 (candPath dir (_get_link_name m.useTitle s1)
      (_get_file_extension s1) 1) = none :=
    harea1 _ (candPath_ne dir _ _ (by omega))
  have hcont0 : contB fs1 f2.path (candPath dir
      (_get_link_name m.useTitle s1) (_get_file_extension s1) 0) = true :=
    contB_true_iff.mpr ⟨f1.path, ha0, hsne⟩
  have hlen1 : 0 < fs1.length :=
    List.length_pos_of_mem (lookup_mem ha0)
  have hslot2a : findSlot fs1 f2.path dir (_get_link_name m.useTitle s1)
      (_get_file_extension s1) (fs1.length + 1) 0 =
      Except.ok (candPath dir (_get_link_name m.useTitle s1)
        (_get_file_extension s1) 1) := by
    refine findSlot_reaches hA1 (contB_false_of_none hl1) ?_ _ 0 (by omega)
      (by omega)
    intro j hj
    have hj0 : j = 0 := by omega
    rw [hj0]
    exact hcont0
  have hslot2 : findSlot fs1 f2.path dir (_get_link_name m.useTitle s2)
      (_get_file_extension s2) (fs1.length + 1) 0 =
      Except.ok (candPath dir (_get_link_name m.useTitle s2)
        (_get_file_extension s2) 1) := by
    rw [hname, hext]
    exact hslot2a
  have hl21b : FS.lookup fs1 (candPath dir (_get_link_name m.useTitle s2)
      (_get_file_extension s2) 1) = none := by
    rw [hname, hext]
    exact hl1
  have hstep2 := processTagScene_created m.useTitle dir
    ⟨fs1, 0 + 1, [] ++ [Event.alreadyCorrect
      (candPath dir (_get_link_name m.useTitle s1)
        (_get_file_extension s1) 0) f1.path]⟩ s2 hf2 hsrc2a hslot2 hl21b
  refine ⟨⟨(candPath dir (_get_link_name m.useTitle s2)
      (_get_file_extension s2) 1, Entry.symlink f2.path) :: fs1,
    0 + 1 + 1,
    ([] ++ [Event.alreadyCorrect (candPath dir
      (_get_link_name m.useTitle s1) (_get_file_extension s1) 0)
      f1.path]) ++
      [Event.created (candPath dir (_get_link_name m.useTitle s2)
        (_get_file_extension s2) 1) f2.path]⟩, ?_, ?_, ?_, ?_⟩
  · unfold placeLinks
    rw [hdry]
    dsimp only
    rw [← hdir]
    rw [show FS.mkdirParents ((candPath dir (_get_link_name m.useTitle s1)
        (_get_file_extension s1) 0, Entry.symlink f1.path) :: fs0) dir =
      Except.ok fs1 from hmk]
    show List.foldlM (processTagScene m.useTitle false dir)
      (⟨fs1, 0, []⟩ : RunState) [s1, s2] = _
    rw [List.foldlM_cons, hstep1, except_bind_ok, List.foldlM_cons, hstep2,
      except_bind_ok]
    rfl
  · show _ = _
    rw [hname, hext]
    rfl
  · show FS.lookup _ _ = _
    rw [hname, hext]
    exact lookup_cons_self
  · rfl

/-- C2: in a non-dry-run `create_tag_links` (or `create_performer_links`)
call processing, in order, two scenes whose resolved link names and
extensions coincide but whose first source paths differ, both scenes
receive links: over a fresh link area the first scene takes the unsuffixed
base name and the second takes the `_1`-suffixed name; and when the base
candidate already points at the first scene's own source, that scene is
reported already-correct and consumes no suffix slot — the second scene
still receives `_1`, in processing order. -/
theorem collision_suffixes_in_order (m : Manager) (fs0 : FS)
    (itemName : String) (s1 s2 : Scene) (f1 f2 : SceneFile)
    (r1 r2 : List SceneFile)
    (hdry : m.dryRun = false)
    (hf1 : s1.files = f1 :: r1) (hf2 : s2.files = f2 :: r2)
    (hsne : f1.path ≠ f2.path)
    (hname : _get_link_name m.useTitle s2 = _get_link_name m.useTitle s1)
    (hext : _get_file_extension s2 = _get_file_extension s1) :
    (DirPrefixOK fs0 (m.farm ++ ["tags", _sanitize_name itemName]) →
      (∀ n, FS.lookup fs0
        ((m.farm ++ ["tags", _sanitize_name itemName]) ++ [n]) = none) →
      FS.lookup fs0 f1.path = some Entry.file →
      FS.lookup fs0 f2.path = some Entry.file →
      (∃ st, create_tag_links m fs0 itemName [s1, s2] = Except.ok st ∧
        st.events = [
          Event.created (candPath (m.farm ++ ["tags",
            _sanitize_name itemName]) (_get_link_name m.useTitle s1)
            (_get_file_extension s1) 0) f1.path,
          Event.created (candPath (m.farm ++ ["tags",
            _sanitize_name itemName]) (_get_link_name m.useTitle s1)
            (_get_file_extension s1) 1) f2.path] ∧
        FS.lookup st.fs (candPath (m.farm ++ ["tags",
          _sanitize_name itemName]) (_get_link_name m.useTitle s1)
          (_get_file_extension s1) 0) = some (Entry.symlink f1.path) ∧
        FS.lookup st.fs (candPath (m.farm ++ ["tags",
          _sanitize_name itemName]) (_get_link_name m.useTitle s1)
          (_get_file_extension s1) 1) = some (Entry.symlink f2.path) ∧
        st.count = 2) ∧
      (∃ st, create_tag_links m
          ((candPath (m.farm ++ ["tags", _sanitize_name itemName])
            (_get_link_name m.useTitle s1) (_get_file_extension s1) 0,
            Entry.symlink f1.path) :: fs0) itemName [s1, s2] =
          Except.ok st ∧
        st.events = [
          Event.alreadyCorrect (candPath (m.farm ++ ["tags",
            _sanitize_name itemName]) (_get_link_name m.useTitle s1)
            (_get_file_extension s1) 0) f1.path,
          Event.created (candPath (m.farm ++ ["tags",
            _sanitize_name itemName]) (_get_link_name m.useTitle s1)
            (_get_file_extension s1) 1) f2.path] ∧
        FS.lookup st.fs (candPath (m.farm ++ ["tags",
          _sanitize_name itemName]) (_get_link_name m.useTitle s1)
          (_get_file_extension s1) 1) = some (Entry.symlink f2.path) ∧
        st.count = 2)) ∧
    (DirPrefixOK fs0 (m.farm ++ ["performers", _sanitize_name itemName]) →
      (∀ n, FS.lookup fs0
        ((m.farm ++ ["performers", _sanitize_name itemName]) ++ [n]) =
          none) →
      FS.lookup fs0 f1.path = some Entry.file →
      FS.lookup fs0 f2.path = some Entry.file →
      (∃ st, create_performer_links m fs0 itemName [s1, s2] =
          Except.ok st ∧
        st.events = [
          Event.created (candPath (m.farm ++ ["performers",
            _sanitize_name itemName]) (_get_link_name m.useTitle s1)
            (_get_file_extension s1) 0) f1.path,
          Event.created (candPath (m.farm ++ ["performers",
            _sanitize_name itemName]) (_get_link_name m.useTitle s1)
            (_get_file_extension s1) 1) f2.path] ∧
        FS.lookup st.fs (candPath (m.farm ++ ["performers",
          _sanitize_name itemName]) (_get_link_name m.useTitle s1)
          (_get_file_extension s1) 0) = some (Entry.symlink f1.path) ∧
        FS.lookup st.fs (candPath (m.farm ++ ["performers",
          _sanitize_name itemName]) (_get_link_name m.useTitle s1)
          (_get_file_extension s1) 1) = some (Entry.symlink f2.path) ∧
        st.count = 2) ∧
      (∃ st, create_performer_links m
          ((candPath (m.farm ++ ["performers", _sanitize_name itemName])
            (_get_link_name m.useTitle s1) (_get_file_extension s1) 0,
            Entry.symlink f1.path) :: fs0) itemName [s1, s2] =
          Except.ok st ∧
        st.events = [
          Event.alreadyCorrect (candPath (m.farm ++ ["performers",
            _sanitize_name itemName]) (_get_link_name m.useTitle s1)
            (_get_file_extension s1) 0) f1.path,
          Event.created (candPath (m.farm ++ ["performers",
            _sanitize_name itemName]) (_get_link_name m.useTitle s1)
            (_get_file_extension s1) 1) f2.path] ∧
        FS.lookup st.fs (candPath (m.farm ++ ["performers",
          _sanitize_name itemName]) (_get_link_name m.useTitle s1)
          (_get_file_extension s1) 1) = some (Entry.symlink f2.path) ∧
        st.count = 2)) := by
  constructor
  · intro hpre harea hsrc1 hsrc2
    constructor
    · obtain ⟨st, h1, h2, h3, h4, h5⟩ := placeLinks_collision "tags" m fs0
        itemName (m.farm ++ ["tags", _sanitize_name itemName]) rfl s1 s2
        f1 f2 r1 r2 hdry hf1 hf2 hsne hname hext hpre harea hsrc1 hsrc2
      exact ⟨st, by rw [create_tag_links_eq_placeLinks]; exact h1,
        h2, h3, h4, h5⟩
    · obtain ⟨st, h1, h2, h3, h4⟩ := placeLinks_presatisfied "tags" m fs0
        itemName (m.farm ++ ["tags", _sanitize_name itemName]) rfl s1 s2
        f1 f2 r1 r2 hdry hf1 hf2 hsne hname hext hpre harea hsrc1 hsrc2
      exact ⟨st, by rw [create_tag_links_eq_placeLinks]; exact h1,
        h2, h3, h4⟩
  · intro hpre harea hsrc1 hsrc2
    constructor
    · obtain ⟨st, h1, h2, h3, h4, h5⟩ := placeLinks_collision "performers"
        m fs0 itemName (m.farm ++ ["performers", _sanitize_name itemName])
        rfl s1 s2 f1 f2 r1 r2 hdry hf1 hf2 hsne hname hext hpre harea
        hsrc1 hsrc2
      exact ⟨st, by rw [create_performer_links_eq_placeLinks]; exact h1,
        h2, h3, h4, h5⟩
    · obtain ⟨st, h1, h2, h3, h4⟩ := placeLinks_presatisfied "performers"
        m fs0 itemName (m.farm ++ ["performers", _sanitize_name itemName])
        rfl s1 s2 f1 f2 r1 r2 hdry hf1 hf2 hsne hname hext hpre harea
        hsrc1 hsrc2
      exact ⟨st, by rw [create_performer_links_eq_placeLinks]; exact h1,
        h2, h3, h4⟩

/-- C2 witness: the collision scenario at a concrete manager, store and
pair of colliding scenes. -/
theorem collision_suffixes_in_order_witness :
    sampleM.dryRun = false ∧
    (⟨["media", "a.mp4"], "a.mp4"⟩ : SceneFile).path ≠
      (⟨["media", "b.mp4"], "b.mp4"⟩ : SceneFile).path ∧
    ((∃ st, create_tag_links sampleM sampleFS "t" [sceneA, sceneB] =
        Except.ok st ∧
      st.events = [
        Event.created (candPath (sampleM.farm ++ ["tags",
          _sanitize_name "t"]) (_get_link_name sampleM.useTitle sceneA)
          (_get_file_extension sceneA) 0)
          (⟨["media", "a.mp4"], "a.mp4"⟩ : SceneFile).path,
        Event.created (candPath (sampleM.farm ++ ["tags",
          _sanitize_name "t"]) (_get_link_name sampleM.useTitle sceneA)
          (_get_file_extension sceneA) 1)
          (⟨["media", "b.mp4"], "b.mp4"⟩ : SceneFile).path] ∧
      FS.lookup st.fs (candPath (sampleM.farm ++ ["tags",
        _sanitize_name "t"]) (_get_link_name sampleM.useTitle sceneA)
        (_get_file_extension sceneA) 0) =
        some (Entry.symlink
          (⟨["media", "a.mp4"], "a.mp4"⟩ : SceneFile).path) ∧
      FS.lookup st.fs (candPath (sampleM.farm ++ ["tags",
        _sanitize_name "t"]) (_get_link_name sampleM.useTitle sceneA)
        (_get_file_extension sceneA) 1) =
        some (Entry.symlink
          (⟨["media", "b.mp4"], "b.mp4"⟩ : SceneFile).path) ∧
      st.count = 2) ∧
    (∃ st, create_tag_links sampleM
        ((candPath (sampleM.farm ++ ["tags", _sanitize_name "t"])
          (_get_link_name sampleM.useTitle sceneA)
          (_get_file_extension sceneA) 0,
          Entry.symlink
            (⟨["media", "a.mp4"], "a.mp4"⟩ : SceneFile).path) ::
          sampleFS) "t" [sceneA, sceneB] = Except.ok st ∧
      st.events = [
        Event.alreadyCorrect (candPath (sampleM.farm ++ ["tags",
          _sanitize_name "t"]) (_get_link_name sampleM.useTitle sceneA)
          (_get_file_extension sceneA) 0)
          (⟨["media", "a.mp4"], "a.mp4"⟩ : SceneFile).path,
        Event.created (candPath (sampleM.farm ++ ["tags",
          _sanitize_name "t"]) (_get_link_name sampleM.useTitle sceneA)
          (_get_file_extension sceneA) 1)
          (⟨["media", "b.mp4"], "b.mp4"⟩ : SceneFile).path] ∧
      FS.lookup st.fs (candPath (sampleM.farm ++ ["tags",
        _sanitize_name "t"]) (_get_link_name sampleM.useTitle sceneA)
        (_get_file_extension sceneA) 1) =
        some (Entry.symlink
          (⟨["media", "b.mp4"], "b.mp4"⟩ : SceneFile).path) ∧
      st.count = 2)) := by
  have harea : ∀ n, FS.lookup sampleFS
      ((sampleM.farm ++ ["tags", _sanitize_name "t"]) ++ [n]) = none := by
    intro n
    rw [show sampleM.farm ++ ["tags", _sanitize_name "t"] =
      ["farm", "tags", "t"] from by decide]
    simp [sampleFS, FS.lookup]
  exact ⟨rfl, by decide,
    (collision_suffixes_in_order sampleM sampleFS "t" sceneA sceneB
      ⟨["media", "a.mp4"], "a.mp4"⟩ ⟨["media", "b.mp4"], "b.mp4"⟩ [] []
      rfl rfl rfl (by decide) (by decide) (by decide)).1
      (by decide) harea (by decide) (by decide)⟩
